import Mathlib

/-!
Verification of the state-machine diagram generator (`state.py`).

The program parses a textual transition table into a Transition Set, then
emits a graph-description document: per-start-state clusters and
error-path clusters for "unusual" inputs.  The core is the class
`Subgraph` whose method `start` expands a cluster from one starting
transition over a growing seen-list, and whose method `out` emits one
edge together with node declarations for fresh endpoints.

The embedding below mirrors the source line by line: printing is
modelled by an emitted list of events (`Ev`), the mutable seen-list and
nonsink-set become an explicit `Subgraph` record threaded through the
computation, and the `while cur < len(self.seen)` loop over the growing
seen-list becomes a fuel-indexed recursion (`expandLoop`); a theorem
shows the chosen fuel makes the recursion exit through the loop guard.
-/

/-- Flat concatenation of the images of a list, used throughout in place
of the library bind on lists. -/
def listFlat (f : α → List β) : List α → List β
  | [] => []
  | a :: l => f a ++ listFlat f l

/-- Element count in a list, with decidable equality. -/
def countT [DecidableEq α] (x : α) : List α → Nat
  | [] => 0
  | a :: l => (if a = x then 1 else 0) + countT x l

/-- Insert into a list sorted by `le` (used to model Python `sorted`). -/
def insertSorted (le : α → α → Bool) (x : α) : List α → List α
  | [] => [x]
  | y :: ys => if le x y then x :: y :: ys else y :: insertSorted le x ys

/-- Insertion sort by `le` (used to model Python `sorted`). -/
def sortBy (le : α → α → Bool) : List α → List α
  | [] => []
  | x :: xs => insertSorted le x (sortBy le xs)

/-- Does `l` contain `pat` as a contiguous sub-list?  Models Python
`pat in s` on strings. -/
def hasInfixCh (pat : List Char) : List Char → Bool
  | [] => pat.isEmpty
  | c :: rest => pat.isPrefixOf (c :: rest) || hasInfixCh pat rest

/-- Python `"\\n" in s`: the two-character sequence backslash-n occurs in
`s` (the join marker of combined error-path origin labels). -/
def hasBackslashN (s : String) : Bool := hasInfixCh ['\\', 'n'] s.data

/-- Character class `[A-Z_]` of the two source regexes. -/
def isUpperCh (c : Char) : Bool := c = '_' || ('A' ≤ c && c ≤ 'Z')

/-- Python `\s` (ASCII whitespace). -/
def isSpaceCh (c : Char) : Bool :=
  c = ' ' || c = '\t' || c = '\n' || c = '\r' || c = '\x0b' || c = '\x0c'

/-- A parsed transition record, as appended by the parse loop
(`trans.append((base_state, new_st, inp, out))`).  `fromS` is an
`Option` because `base_state` starts out as `None`. -/
structure PTrans where
  fromS : Option String
  toS : String
  inp : String
  outp : Option String
  deriving DecidableEq

/-- `re_state = ^([A-Z_]+):$` applied to one line (lines carry no
interior newline, so `$` is end of string). Returns group 1. -/
def reStateMatch (l : List Char) : Option String :=
  let g := l.takeWhile isUpperCh
  let rest := l.dropWhile isUpperCh
  if g.isEmpty then none
  else if rest = [':'] then some (String.mk g) else none

/-- `re_trans = ^\s+([A-Z_]+)\s*->\s*([A-Z_]+)(\s+[(]([A-Z_]+)[)])?\s*$`
applied to one line.  Returns groups 1, 2and 4 (input, new state,
optional output).  The regex is deterministic: the character classes
`\s`, `[A-Z_]`, and the literals `-> ( )` are pairwise disjoint, so the
greedy sequential parse below is exactly its matching relation. -/
def reTransMatch (l : List Char) : Option (String × String × Option String) :=
  if (l.takeWhile isSpaceCh).isEmpty then none else
  if ((l.dropWhile isSpaceCh).takeWhile isUpperCh).isEmpty then none else
  match ((l.dropWhile isSpaceCh).dropWhile isUpperCh).dropWhile isSpaceCh with
  | c1 :: c2 :: r4 =>
    if c1 = '-' ∧ c2 = '>' then
      if ((r4.dropWhile isSpaceCh).takeWhile isUpperCh).isEmpty then none else
      match ((r4.dropWhile isSpaceCh).dropWhile isUpperCh).dropWhile isSpaceCh with
      | [] => some (String.mk ((l.dropWhile isSpaceCh).takeWhile isUpperCh),
          String.mk ((r4.dropWhile isSpaceCh).takeWhile isUpperCh), none)
      | c3 :: r8 =>
        if c3 = '(' then
          if (((r4.dropWhile isSpaceCh).dropWhile isUpperCh).takeWhile
              isSpaceCh).isEmpty then none else
          if (r8.takeWhile isUpperCh).isEmpty then none else
          match r8.dropWhile isUpperCh with
          | c4 :: r10 =>
            if c4 = ')' then
              if (r10.dropWhile isSpaceCh).isEmpty then
                some (String.mk ((l.dropWhile isSpaceCh).takeWhile isUpperCh),
                  String.mk ((r4.dropWhile isSpaceCh).takeWhile isUpperCh),
                  some (String.mk (r8.takeWhile isUpperCh)))
              else none
            else none
          | [] => none
        else none
    else none
  | _ => none

/-- The parse loop (source lines 14-25): a state line updates
`base_state`, a transition line appends a record, any other line is
reported (second component collects the reported lines in order). -/
def parseLines : Option String → List String → List PTrans × List String
  | _, [] => ([], [])
  | base, l :: rest =>
    match reStateMatch l.data with
    | some s => parseLines (some s) rest
    | none =>
      match reTransMatch l.data with
      | some (inp, newSt, outp) =>
        let r := parseLines base rest
        ((⟨base, newSt, inp, outp⟩ : PTrans) :: r.1, r.2)
      | none =>
        let r := parseLines base rest
        (r.1, l :: r.2)

/-- A transition as consumed by the graph builder: a 4-tuple
`(from_state, to_state, input, output)`; a 3-element synthetic starting
transition is the case of an absent `outp`. -/
structure Transition where
  fromS : String
  toS : String
  inp : String
  outp : Option String
  deriving DecidableEq

/-- One emitted output fragment of the document. -/
inductive Ev where
  /-- A node declaration `" i [label=lbl];"`; `key` is the seen-list
  entry (state name plus origin suffix) whose first appearance caused
  the declaration. -/
  | nodeDecl (key ident lbl : String)
  /-- An edge declaration (source line 83), carrying the transition it
  renders, the cluster counter and whether it is the initial edge. -/
  | edgeDecl (t : Transition) (count : Nat) (first : Bool)
  /-- A sink styling line (source line 60). -/
  | sinkDecl (key : String) (count : Nat)
  /-- `subgraph cluster_n` with its label line. -/
  | openCluster (n : Nat) (lbl : String)
  /-- The closing line of a cluster. -/
  | closeCluster
  deriving DecidableEq

/-- The origin suffix `"_O"` appended when `first` is set. -/
def extOf (first : Bool) : String := if first then "_O" else ""

/-- The label of an emitted edge (source lines 64-66). -/
def edgeLbl (t : Transition) : String :=
  match t.outp with
  | some o => "<" ++ t.inp ++ "\\n>" ++ o
  | none => "<" ++ t.inp

/-- The rendered identifier of the source endpoint (source lines 68,
71-72): `name_count[ext]`, replaced by `_count[ext]` when it contains
the backslash-n join marker. -/
def srcIdent (name : String) (count : Nat) (ext : String) : String :=
  let i0 := name ++ "_" ++ toString count ++ ext
  if hasBackslashN i0 then "_" ++ toString count ++ ext else i0

/-- The rendered identifier of the destination endpoint (source line 69). -/
def destIdent (name : String) (count : Nat) : String :=
  name ++ "_" ++ toString count

/-- The text of a node declaration (source lines 78 and 81). -/
def nodeLine (ident lbl : String) : String :=
  " " ++ ident ++ " [label=\"" ++ lbl ++ "\"];"

/-- The text of an edge declaration (source line 83). -/
def edgeLine (t : Transition) (count : Nat) (first : Bool) : String :=
  "   " ++ srcIdent t.fromS count (extOf first) ++ " -> " ++
    destIdent t.toS count ++ " [label=\"" ++ edgeLbl t ++ "\"];"

/-- The text of a sink styling line (source line 60). -/
def sinkLine (key : String) (count : Nat) : String :=
  " " ++ key ++ "_" ++ toString count ++ " [color=coral, style=filled];"

/-- The per-invocation mutable state of the cluster builder: the ordered
seen-list and the nonsink set (a list used only through membership). -/
structure Subgraph where
  seen : List String
  nonsink : List String
  deriving DecidableEq

/-- Append `key` to the seen-list if new, emitting its node declaration
(the common shape of source lines 76-78 and 79-81). -/
def appendIfNew (seen : List String) (key ident lbl : String) :
    List String × List Ev :=
  if key ∈ seen then (seen, [])
  else (seen ++ [key], [Ev.nodeDecl key ident lbl])

/-- `Subgraph.out` (source lines 62-83): emit one edge, mark the source
key nonsink, and append/declare both endpoints if new. -/
def Subgraph.out (count : Nat) (sg : Subgraph) (t : Transition) (first : Bool) :
    Subgraph × List Ev :=
  let ext := extOf first
  let p1 := appendIfNew sg.seen (t.fromS ++ ext) (srcIdent t.fromS count ext) t.fromS
  let p2 := appendIfNew p1.1 t.toS (destIdent t.toS count) t.toS
  (⟨p2.1, (t.fromS ++ ext) :: sg.nonsink⟩,
    p1.2 ++ p2.2 ++ [Ev.edgeDecl t count first])

/-- The inner `for t in trans` of the expansion loop (source lines
51-55): skip self-loops unless `do_nop`, skip unusual inputs unless
`do_unusual`, and `out` every transition leaving `st`. -/
def expandTrans (count : Nat) (unusualL : List String) (dn du : Bool)
    (st : String) (sg : Subgraph) : List Transition → Subgraph × List Ev
  | [] => (sg, [])
  | t :: ts =>
    if t.fromS = t.toS ∧ dn = false then
      expandTrans count unusualL dn du st sg ts
    else if t.inp ∈ unusualL ∧ du = false then
      expandTrans count unusualL dn du st sg ts
    else if st = t.fromS then
      ((expandTrans count unusualL dn du st (Subgraph.out count sg t false).1 ts).1,
       (Subgraph.out count sg t false).2 ++
         (expandTrans count unusualL dn du st (Subgraph.out count sg t false).1 ts).2)
    else expandTrans count unusualL dn du st sg ts

/-- The body of one iteration of the worklist loop (source lines
49-55): a seen state that is a start state is not expanded. -/
def expandFrom (count : Nat) (startL unusualL : List String)
    (transL : List Transition) (dn du : Bool) (sg : Subgraph) (st : String) :
    Subgraph × List Ev :=
  if st ∈ startL then (sg, []) else expandTrans count unusualL dn du st sg transL

/-- The worklist loop `while cur < len(self.seen)` (source lines 47-56),
as a fuel-indexed recursion; `expandLoop_fuel_add` below shows the fuel
used by `Subgraph.start` makes it exit through the guard. -/
def expandLoop (count : Nat) (startL unusualL : List String)
    (transL : List Transition) (dn du : Bool) :
    Nat → Nat → Subgraph → Subgraph × List Ev
  | 0, _, sg => (sg, [])
  | fuel + 1, cur, sg =>
    if h : cur < sg.seen.length then
      let r1 := expandFrom count startL unusualL transL dn du sg
        (sg.seen.get ⟨cur, h⟩)
      let r2 := expandLoop count startL unusualL transL dn du fuel (cur + 1) r1.1
      (r2.1, r1.2 ++ r2.2)
    else (sg, [])

/-- Every string that can ever enter the seen-list of a cluster started
from `startT`: the origin key plus all endpoint names of the transition
set. -/
def allowedStates (startT : Transition) (transL : List Transition) : List String :=
  (startT.fromS ++ "_O") :: startT.toS ::
    listFlat (fun t => [t.fromS, t.toS]) transL

/-- Fuel for `expandLoop`: the number of distinct possible seen-list
entries. -/
def startFuel (startT : Transition) (transL : List Transition) : Nat :=
  (allowedStates startT transL).dedup.length

/-- `Subgraph.start` (source lines 40-60) with explicit loop fuel:
fresh seen-list and nonsink set, the initial `out` with `first=True`,
the worklist loop from index 1, then the sink styling pass.  `count` is
the value of `self.count` after the increment on entry. -/
def Subgraph.start (count : Nat) (startL unusualL : List String)
    (transL : List Transition) (startT : Transition) (dn du : Bool) (fuel : Nat) :
    Subgraph × List Ev :=
  let r0 := Subgraph.out count ⟨[], []⟩ startT true
  let r1 := expandLoop count startL unusualL transL dn du fuel 1 r0.1
  let sinkEvs := (r1.1.seen.filter (fun o => decide (o ∉ r1.1.nonsink))).map
    (fun o => Ev.sinkDecl o count)
  (r1.1, r0.2 ++ r1.2 ++ sinkEvs)

/-- `Subgraph.start` with the sufficient default fuel. -/
def sgStart (count : Nat) (startL unusualL : List String)
    (transL : List Transition) (startT : Transition) (dn du : Bool) :
    Subgraph × List Ev :=
  Subgraph.start count startL unusualL transL startT dn du
    (startFuel startT transL)

/-- The list of transitions emitted as expanded (non-initial) edges. -/
def expandedEdges : List Ev → List Transition :=
  listFlat fun e =>
    match e with
    | Ev.edgeDecl t _ false => [t]
    | _ => []

/-- The list of transitions emitted as initial edges. -/
def initialEdges : List Ev → List Transition :=
  listFlat fun e =>
    match e with
    | Ev.edgeDecl t _ true => [t]
    | _ => []

/-- The source node key of every emitted edge (origin-suffixed for the
initial edge), i.e. exactly what enters the nonsink set. -/
def srcKeys : List Ev → List String :=
  listFlat fun e =>
    match e with
    | Ev.edgeDecl t _ first => [t.fromS ++ extOf first]
    | _ => []

/-- The destination state of every emitted edge. -/
def destKeys : List Ev → List String :=
  listFlat fun e =>
    match e with
    | Ev.edgeDecl t _ _ => [t.toS]
    | _ => []

/-- The seen-list key of every emitted node declaration. -/
def nodeKeys : List Ev → List String :=
  listFlat fun e =>
    match e with
    | Ev.nodeDecl k _ _ => [k]
    | _ => []

/-- Whether the expansion loop emits transition `t` (the two skip rules
of source lines 52-53). -/
def passEdge (unusualL : List String) (dn du : Bool) (t : Transition) : Bool :=
  !(decide (t.fromS = t.toS) && !dn) && !(decide (t.inp ∈ unusualL) && !du)

/-- The transitions the loop emits while visiting seen entry `st`. -/
def stEdges (startL unusualL : List String) (transL : List Transition)
    (dn du : Bool) (st : String) : List Transition :=
  if st ∈ startL then []
  else transL.filter (fun t => passEdge unusualL dn du t && decide (st = t.fromS))

/-- Association-list update modelling `res[k].append(v)` with implicit
key creation (source lines 99-100). -/
def addGroup (res : List ((String × Option String) × List String))
    (k : String × Option String) (v : String) :
    List ((String × Option String) × List String) :=
  match res with
  | [] => [(k, [v])]
  | (k0, vs) :: rest =>
    if k0 = k then (k0, vs ++ [v]) :: rest else (k0, vs) :: addGroup rest k v

/-- Group lookup; `[]` for an absent key. -/
def lookupG (res : List ((String × Option String) × List String))
    (k : String × Option String) : List String :=
  match res with
  | [] => []
  | (k0, vs) :: rest => if k0 = k then vs else lookupG rest k

/-- The classifier accumulation of source lines 94-100. -/
def classifyAux (u : String)
    (res : List ((String × Option String) × List String)) :
    List Transition → List ((String × Option String) × List String)
  | [] => res
  | t :: ts =>
    classifyAux u
      (if t.inp = u then addGroup res (t.toS, t.outp) t.fromS else res) ts

/-- Unusual-input classifier: map each `(resulting_state, output)` pair
to the from-states of the transitions on input `u` reaching it. -/
def classify (u : String) (transL : List Transition) :
    List ((String × Option String) × List String) :=
  classifyAux u [] transL

/-- Byte-wise lexicographic strict comparison on character lists
(Python2 string `<`). -/
def ltChList : List Char → List Char → Bool
  | [], [] => false
  | [], _ :: _ => true
  | _ :: _, [] => false
  | a :: as, b :: bs =>
    if a.toNat < b.toNat then true
    else if b.toNat < a.toNat then false
    else ltChList as bs

/-- Python2 byte-wise string `≤` as a Bool. -/
def strLe (a b : String) : Bool := ltChList a.data b.data || a == b

/-- Python2 `≤` on the optional output, where `None` sorts below every
string. -/
def optLe : Option String → Option String → Bool
  | none, _ => true
  | some _, none => false
  | some a, some b => strLe a b

/-- Python2 tuple `≤` on classifier keys. -/
def keyLe (a b : String × Option String) : Bool :=
  ltChList a.1.data b.1.data || (a.1 == b.1 && optLe a.2 b.2)

/-- The synthetic starting transition of one convergence group (source
lines 110-111): the combined origin label is the backslash-n join of
the sorted contributing from-states. -/
def buildStartTrans (u : String) (k : String × Option String)
    (fs : List String) : Transition :=
  ⟨String.intercalate "\\n" (sortBy strLe fs), k.1, u, k.2⟩

/-- One `sg.start` invocation per sorted classifier key (source lines
109-112), threading the subgraph counter. -/
def runGroups (startL unusualL : List String) (transL : List Transition)
    (u : String) (res : List ((String × Option String) × List String))
    (sc : Nat) : List (String × Option String) → Nat × List Ev
  | [] => (sc, [])
  | k :: ks =>
    let r := sgStart (sc + 1) startL unusualL transL
      (buildStartTrans u k (lookupG res k)) false false
    let rest := runGroups startL unusualL transL u res (sc + 1) ks
    (rest.1, r.2 ++ rest.2)

/-- The error-path cluster for one unusual input `u` (source lines
93-114): nothing is emitted when no transition uses `u`; otherwise a
cluster labelled `error path u` wraps one builder invocation per
convergence group.  Returns the new cluster counter, the new subgraph
counter, and the events. -/
def unusualClusterFor (startL unusualL : List String) (transL : List Transition)
    (u : String) (cc sc : Nat) : (Nat × Nat) × List Ev :=
  let res := classify u transL
  if res = [] then ((cc, sc), [])
  else
    let r := runGroups startL unusualL transL u res sc
      (sortBy keyLe (res.map Prod.fst))
    ((cc + 1, r.1),
      Ev.openCluster (cc + 1) ("error path " ++ u) :: r.2 ++ [Ev.closeCluster])

/-! ### Basic lemmas about the helper functions -/

theorem listFlat_append (f : α → List β) (l₁ l₂ : List α) :
    listFlat f (l₁ ++ l₂) = listFlat f l₁ ++ listFlat f l₂ := by
  induction l₁ with
  | nil => rfl
  | cons a l ih => simp [listFlat, ih]

theorem mem_listFlat {f : α → List β} {l : List α} {b : β} :
    b ∈ listFlat f l ↔ ∃ a ∈ l, b ∈ f a := by
  induction l with
  | nil => simp [listFlat]
  | cons a l ih => simp [listFlat, ih]

theorem listFlat_nil_of_forall {f : α → List β} {l : List α}
    (h : ∀ a ∈ l, f a = []) : listFlat f l = [] := by
  induction l with
  | nil => rfl
  | cons a l ih =>
    simp only [listFlat, h a (by simp)]
    exact ih fun a ha => h a (by simp [ha])

theorem str_append_empty (s : String) : s ++ "" = s := by simp

theorem countT_append [DecidableEq α] (x : α) (l₁ l₂ : List α) :
    countT x (l₁ ++ l₂) = countT x l₁ + countT x l₂ := by
  induction l₁ with
  | nil => simp [countT]
  | cons a l ih => simp [countT, ih]; omega

theorem countT_eq_count [DecidableEq α] (x : α) (l : List α) :
    countT x l = l.count x := by
  induction l with
  | nil => rfl
  | cons a l ih =>
    simp only [countT, ih, List.count_cons, beq_iff_eq]
    by_cases h : a = x
    · simp only [if_pos h, if_pos h.symm]; omega
    · simp only [if_neg h, if_neg (Ne.symm h)]; omega

theorem countT_filter [DecidableEq α] (x : α) (p : α → Bool) (l : List α) :
    countT x (l.filter p) = if p x then countT x l else 0 := by
  induction l with
  | nil => simp [countT]
  | cons a l ih =>
    by_cases hax : a = x
    · subst hax
      by_cases hp : p a <;> simp [List.filter_cons, hp, countT, ih]
    · by_cases hp : p a <;> simp [List.filter_cons, hp, countT, ih, hax]

theorem nodup_length_le_dedup [DecidableEq α] {l m : List α}
    (h : l.Nodup) (hs : ∀ x ∈ l, x ∈ m) : l.length ≤ m.dedup.length := by
  have h1 : l.toFinset.card = l.length := List.toFinset_card_of_nodup h
  have h2 : m.toFinset.card = m.dedup.length := List.card_toFinset m
  have h3 : l.toFinset ⊆ m.toFinset := by
    intro x hx
    rw [List.mem_toFinset] at hx ⊢
    exact hs x hx
  calc l.length = l.toFinset.card := h1.symm
    _ ≤ m.toFinset.card := Finset.card_le_card h3
    _ = m.dedup.length := h2

theorem sortBy_perm (le : α → α → Bool) (l : List α) :
    List.Perm (sortBy le l) l := by
  induction l with
  | nil => exact List.Perm.refl _
  | cons x xs ih =>
    have hins : ∀ (m : List α), List.Perm (insertSorted le x m) (x :: m) := by
      intro m
      induction m with
      | nil => exact List.Perm.refl _
      | cons y ys ihy =>
        by_cases h : le x y
        · simp [insertSorted, h]
        · simp only [insertSorted, h, if_neg]
          exact List.Perm.trans (List.Perm.cons y ihy) (List.Perm.swap x y ys)
    exact (hins (sortBy le xs)).trans (List.Perm.cons x ih)

theorem mem_sortBy {le : α → α → Bool} {l : List α} {x : α} :
    x ∈ sortBy le l ↔ x ∈ l := (sortBy_perm le l).mem_iff

/-! ### Lemmas about `appendIfNew` and `Subgraph.out` -/

theorem appendIfNew_pos {seen : List String} {key : String} (i l : String)
    (h : key ∈ seen) : appendIfNew seen key i l = (seen, []) := by
  simp [appendIfNew, h]

theorem appendIfNew_neg {seen : List String} {key : String} (i l : String)
    (h : key ∉ seen) :
    appendIfNew seen key i l = (seen ++ [key], [Ev.nodeDecl key i l]) := by
  simp [appendIfNew, h]

theorem appendIfNew_seen_mem (seen : List String) (key i l : String)
    (x : String) : x ∈ (appendIfNew seen key i l).1 ↔ x ∈ seen ∨ x = key := by
  by_cases h : key ∈ seen
  · rw [appendIfNew_pos i l h]
    constructor
    · exact Or.inl
    · rintro (hx | rfl)
      · exact hx
      · exact h
  · rw [appendIfNew_neg i l h]
    simp

theorem appendIfNew_prefix (seen : List String) (key i l : String) :
    ∃ d, (appendIfNew seen key i l).1 = seen ++ d := by
  by_cases h : key ∈ seen
  · exact ⟨[], by rw [appendIfNew_pos i l h]; simp⟩
  · exact ⟨[key], by rw [appendIfNew_neg i l h]⟩

theorem appendIfNew_nodup {seen : List String} (key i l : String)
    (h : seen.Nodup) : (appendIfNew seen key i l).1.Nodup := by
  by_cases hk : key ∈ seen
  · rw [appendIfNew_pos i l hk]; exact h
  · rw [appendIfNew_neg i l hk]
    simp [List.nodup_append, h, hk]

theorem appendIfNew_key_mem (seen : List String) (key i l : String) :
    key ∈ (appendIfNew seen key i l).1 := by
  rw [appendIfNew_seen_mem]
  exact Or.inr rfl

theorem appendIfNew_evs (seen : List String) (key i l : String) :
    (appendIfNew seen key i l).2 = [] ∨
      ((appendIfNew seen key i l).2 = [Ev.nodeDecl key i l] ∧ key ∉ seen) := by
  by_cases h : key ∈ seen
  · rw [appendIfNew_pos i l h]; exact Or.inl rfl
  · rw [appendIfNew_neg i l h]; exact Or.inr ⟨rfl, h⟩

theorem appendIfNew_nodeKeys (seen : List String) (key i l : String)
    (x : String) :
    x ∈ nodeKeys (appendIfNew seen key i l).2 ↔ x = key ∧ key ∉ seen := by
  by_cases h : key ∈ seen
  · rw [appendIfNew_pos i l h]
    simp [nodeKeys, listFlat, h]
  · rw [appendIfNew_neg i l h]
    simp [nodeKeys, listFlat, h]

@[simp] theorem expandedEdges_nil : expandedEdges [] = [] := rfl

@[simp] theorem expandedEdges_append (l₁ l₂ : List Ev) :
    expandedEdges (l₁ ++ l₂) = expandedEdges l₁ ++ expandedEdges l₂ :=
  listFlat_append _ l₁ l₂

@[simp] theorem expandedEdges_cons_node (k i l : String) (evs : List Ev) :
    expandedEdges (Ev.nodeDecl k i l :: evs) = expandedEdges evs := rfl

@[simp] theorem expandedEdges_cons_edge_false (t : Transition) (c : Nat)
    (evs : List Ev) :
    expandedEdges (Ev.edgeDecl t c false :: evs) = t :: expandedEdges evs := rfl

@[simp] theorem expandedEdges_cons_edge_true (t : Transition) (c : Nat)
    (evs : List Ev) :
    expandedEdges (Ev.edgeDecl t c true :: evs) = expandedEdges evs := rfl

@[simp] theorem expandedEdges_cons_sink (k : String) (c : Nat) (evs : List Ev) :
    expandedEdges (Ev.sinkDecl k c :: evs) = expandedEdges evs := rfl

@[simp] theorem initialEdges_nil : initialEdges [] = [] := rfl

@[simp] theorem initialEdges_append (l₁ l₂ : List Ev) :
    initialEdges (l₁ ++ l₂) = initialEdges l₁ ++ initialEdges l₂ :=
  listFlat_append _ l₁ l₂

@[simp] theorem initialEdges_cons_node (k i l : String) (evs : List Ev) :
    initialEdges (Ev.nodeDecl k i l :: evs) = initialEdges evs := rfl

@[simp] theorem initialEdges_cons_edge_false (t : Transition) (c : Nat)
    (evs : List Ev) :
    initialEdges (Ev.edgeDecl t c false :: evs) = initialEdges evs := rfl

@[simp] theorem initialEdges_cons_edge_true (t : Transition) (c : Nat)
    (evs : List Ev) :
    initialEdges (Ev.edgeDecl t c true :: evs) = t :: initialEdges evs := rfl

@[simp] theorem initialEdges_cons_sink (k : String) (c : Nat) (evs : List Ev) :
    initialEdges (Ev.sinkDecl k c :: evs) = initialEdges evs := rfl

@[simp] theorem srcKeys_nil : srcKeys [] = [] := rfl

@[simp] theorem srcKeys_append (l₁ l₂ : List Ev) :
    srcKeys (l₁ ++ l₂) = srcKeys l₁ ++ srcKeys l₂ :=
  listFlat_append _ l₁ l₂

@[simp] theorem srcKeys_cons_node (k i l : String) (evs : List Ev) :
    srcKeys (Ev.nodeDecl k i l :: evs) = srcKeys evs := rfl

@[simp] theorem srcKeys_cons_edge (t : Transition) (c : Nat) (first : Bool)
    (evs : List Ev) : srcKeys (Ev.edgeDecl t c first :: evs) =
      (t.fromS ++ extOf first) :: srcKeys evs := rfl

@[simp] theorem srcKeys_cons_sink (k : String) (c : Nat) (evs : List Ev) :
    srcKeys (Ev.sinkDecl k c :: evs) = srcKeys evs := rfl

@[simp] theorem destKeys_nil : destKeys [] = [] := rfl

@[simp] theorem destKeys_append (l₁ l₂ : List Ev) :
    destKeys (l₁ ++ l₂) = destKeys l₁ ++ destKeys l₂ :=
  listFlat_append _ l₁ l₂

@[simp] theorem destKeys_cons_node (k i l : String) (evs : List Ev) :
    destKeys (Ev.nodeDecl k i l :: evs) = destKeys evs := rfl

@[simp] theorem destKeys_cons_edge (t : Transition) (c : Nat) (first : Bool)
    (evs : List Ev) :
    destKeys (Ev.edgeDecl t c first :: evs) = t.toS :: destKeys evs := rfl

@[simp] theorem destKeys_cons_sink (k : String) (c : Nat) (evs : List Ev) :
    destKeys (Ev.sinkDecl k c :: evs) = destKeys evs := rfl

@[simp] theorem nodeKeys_nil : nodeKeys [] = [] := rfl

@[simp] theorem nodeKeys_append (l₁ l₂ : List Ev) :
    nodeKeys (l₁ ++ l₂) = nodeKeys l₁ ++ nodeKeys l₂ :=
  listFlat_append _ l₁ l₂

@[simp] theorem nodeKeys_cons_node (k i l : String) (evs : List Ev) :
    nodeKeys (Ev.nodeDecl k i l :: evs) = k :: nodeKeys evs := rfl

@[simp] theorem nodeKeys_cons_edge (t : Transition) (c : Nat) (first : Bool)
    (evs : List Ev) : nodeKeys (Ev.edgeDecl t c first :: evs) = nodeKeys evs :=
  rfl

@[simp] theorem nodeKeys_cons_sink (k : String) (c : Nat) (evs : List Ev) :
    nodeKeys (Ev.sinkDecl k c :: evs) = nodeKeys evs := rfl

theorem appendIfNew_seen_iff_nodeKeys (seen : List String) (key i l : String)
    (k : String) : k ∈ (appendIfNew seen key i l).1 ↔
      k ∈ seen ∨ k ∈ nodeKeys (appendIfNew seen key i l).2 := by
  by_cases h : key ∈ seen
  · rw [appendIfNew_pos i l h]
    simp only [nodeKeys_nil, List.not_mem_nil, or_false]
  · rw [appendIfNew_neg i l h]
    simp

theorem out_def (c : Nat) (sg : Subgraph) (t : Transition) (first : Bool) :
    Subgraph.out c sg t first =
      (⟨(appendIfNew
            (appendIfNew sg.seen (t.fromS ++ extOf first)
              (srcIdent t.fromS c (extOf first)) t.fromS).1
            t.toS (destIdent t.toS c) t.toS).1,
        (t.fromS ++ extOf first) :: sg.nonsink⟩,
       (appendIfNew sg.seen (t.fromS ++ extOf first)
          (srcIdent t.fromS c (extOf first)) t.fromS).2 ++
       (appendIfNew
          (appendIfNew sg.seen (t.fromS ++ extOf first)
            (srcIdent t.fromS c (extOf first)) t.fromS).1
          t.toS (destIdent t.toS c) t.toS).2 ++
       [Ev.edgeDecl t c first]) := rfl

theorem out_seen_mem (c : Nat) (sg : Subgraph) (t : Transition) (first : Bool)
    (x : String) : x ∈ (Subgraph.out c sg t first).1.seen ↔
      x ∈ sg.seen ∨ x = t.fromS ++ extOf first ∨ x = t.toS := by
  rw [out_def]
  simp only [appendIfNew_seen_mem]
  tauto

theorem out_prefix (c : Nat) (sg : Subgraph) (t : Transition) (first : Bool) :
    ∃ d, (Subgraph.out c sg t first).1.seen = sg.seen ++ d := by
  rw [out_def]
  obtain ⟨d1, h1⟩ := appendIfNew_prefix sg.seen (t.fromS ++ extOf first)
    (srcIdent t.fromS c (extOf first)) t.fromS
  obtain ⟨d2, h2⟩ := appendIfNew_prefix
    (appendIfNew sg.seen (t.fromS ++ extOf first)
      (srcIdent t.fromS c (extOf first)) t.fromS).1
    t.toS (destIdent t.toS c) t.toS
  exact ⟨d1 ++ d2, by rw [h2, h1, List.append_assoc]⟩

theorem out_nodup (c : Nat) (sg : Subgraph) (t : Transition) (first : Bool)
    (h : sg.seen.Nodup) : (Subgraph.out c sg t first).1.seen.Nodup := by
  rw [out_def]
  exact appendIfNew_nodup _ _ _ (appendIfNew_nodup _ _ _ h)

theorem out_nonsink_mem (c : Nat) (sg : Subgraph) (t : Transition)
    (first : Bool) (a : String) : a ∈ (Subgraph.out c sg t first).1.nonsink ↔
      a = t.fromS ++ extOf first ∨ a ∈ sg.nonsink := by
  rw [out_def]
  simp

theorem out_toS_mem (c : Nat) (sg : Subgraph) (t : Transition) (first : Bool) :
    t.toS ∈ (Subgraph.out c sg t first).1.seen := by
  rw [out_def]
  exact appendIfNew_key_mem _ _ _ _

theorem out_seen_iff_nodeKeys (c : Nat) (sg : Subgraph) (t : Transition)
    (first : Bool) (k : String) : k ∈ (Subgraph.out c sg t first).1.seen ↔
      k ∈ sg.seen ∨ k ∈ nodeKeys (Subgraph.out c sg t first).2 := by
  rw [out_def]
  simp only [nodeKeys_append, List.mem_append]
  rw [appendIfNew_seen_iff_nodeKeys, appendIfNew_seen_iff_nodeKeys]
  simp only [nodeKeys_cons_edge, nodeKeys_nil, List.not_mem_nil, or_false]
  tauto

theorem appendIfNew_mem_evs {seen : List String} {key i l : String} {e : Ev}
    (h : e ∈ (appendIfNew seen key i l).2) : e = Ev.nodeDecl key i l := by
  by_cases hk : key ∈ seen
  · rw [appendIfNew_pos i l hk] at h
    exact absurd h (List.not_mem_nil e)
  · rw [appendIfNew_neg i l hk] at h
    simpa using h

@[simp] theorem expandedEdges_appendIfNew (seen : List String) (key i l : String) :
    expandedEdges (appendIfNew seen key i l).2 = [] := by
  by_cases h : key ∈ seen
  · rw [appendIfNew_pos i l h]; rfl
  · rw [appendIfNew_neg i l h]; rfl

@[simp] theorem initialEdges_appendIfNew (seen : List String) (key i l : String) :
    initialEdges (appendIfNew seen key i l).2 = [] := by
  by_cases h : key ∈ seen
  · rw [appendIfNew_pos i l h]; rfl
  · rw [appendIfNew_neg i l h]; rfl

@[simp] theorem srcKeys_appendIfNew (seen : List String) (key i l : String) :
    srcKeys (appendIfNew seen key i l).2 = [] := by
  by_cases h : key ∈ seen
  · rw [appendIfNew_pos i l h]; rfl
  · rw [appendIfNew_neg i l h]; rfl

@[simp] theorem destKeys_appendIfNew (seen : List String) (key i l : String) :
    destKeys (appendIfNew seen key i l).2 = [] := by
  by_cases h : key ∈ seen
  · rw [appendIfNew_pos i l h]; rfl
  · rw [appendIfNew_neg i l h]; rfl

theorem out_expandedEdges (c : Nat) (sg : Subgraph) (t : Transition)
    (first : Bool) : expandedEdges (Subgraph.out c sg t first).2 =
      if first then [] else [t] := by
  rw [out_def]
  cases first <;> simp

theorem out_initialEdges (c : Nat) (sg : Subgraph) (t : Transition)
    (first : Bool) : initialEdges (Subgraph.out c sg t first).2 =
      if first then [t] else [] := by
  rw [out_def]
  cases first <;> simp

theorem out_srcKeys (c : Nat) (sg : Subgraph) (t : Transition) (first : Bool) :
    srcKeys (Subgraph.out c sg t first).2 = [t.fromS ++ extOf first] := by
  rw [out_def]
  simp

theorem out_destKeys (c : Nat) (sg : Subgraph) (t : Transition) (first : Bool) :
    destKeys (Subgraph.out c sg t first).2 = [t.toS] := by
  rw [out_def]
  simp

theorem out_no_sink (c : Nat) (sg : Subgraph) (t : Transition) (first : Bool)
    (k : String) (n : Nat) : Ev.sinkDecl k n ∉ (Subgraph.out c sg t first).2 := by
  rw [out_def]
  intro h
  simp only [List.mem_append, List.mem_singleton] at h
  rcases h with (h | h) | h
  · exact absurd (appendIfNew_mem_evs h) (by simp)
  · exact absurd (appendIfNew_mem_evs h) (by simp)
  · exact absurd h (by simp)

theorem out_node_shape (c : Nat) (sg : Subgraph) (t : Transition) (first : Bool)
    {k i l : String} (h : Ev.nodeDecl k i l ∈ (Subgraph.out c sg t first).2) :
    (k = t.fromS ++ extOf first ∧ i = srcIdent t.fromS c (extOf first) ∧
      l = t.fromS) ∨ (k = t.toS ∧ i = destIdent t.toS c ∧ l = t.toS) := by
  rw [out_def] at h
  simp only [List.mem_append, List.mem_singleton] at h
  rcases h with (h | h) | h
  · have := appendIfNew_mem_evs h
    simp only [Ev.nodeDecl.injEq] at this
    exact Or.inl this
  · have := appendIfNew_mem_evs h
    simp only [Ev.nodeDecl.injEq] at this
    exact Or.inr this
  · exact absurd h (by simp)

theorem out_shape_known (c : Nat) (sg : Subgraph) (t : Transition)
    (hfrom : t.fromS ∈ sg.seen) {e : Ev}
    (h : e ∈ (Subgraph.out c sg t false).2) :
    (∃ s0, e = Ev.nodeDecl s0 (destIdent s0 c) s0) ∨
      e = Ev.edgeDecl t c false := by
  rw [out_def] at h
  have hfrom2 : t.fromS ++ extOf false ∈ sg.seen := by
    simpa [extOf, str_append_empty] using hfrom
  rw [appendIfNew_pos _ _ hfrom2] at h
  simp only [List.nil_append, List.mem_append, List.mem_singleton] at h
  rcases h with h | h
  · exact Or.inl ⟨t.toS, appendIfNew_mem_evs h⟩
  · exact Or.inr h

/-! ### Lemmas about `expandTrans` (the inner for-loop) -/

theorem expandTrans_nil (c : Nat) (uL : List String) (dn du : Bool)
    (st : String) (sg : Subgraph) : expandTrans c uL dn du st sg [] = (sg, []) :=
  rfl

theorem expandTrans_cons (c : Nat) (uL : List String) (dn du : Bool)
    (st : String) (sg : Subgraph) (t : Transition) (ts : List Transition) :
    expandTrans c uL dn du st sg (t :: ts) =
      if t.fromS = t.toS ∧ dn = false then expandTrans c uL dn du st sg ts
      else if t.inp ∈ uL ∧ du = false then expandTrans c uL dn du st sg ts
      else if st = t.fromS then
        ((expandTrans c uL dn du st (Subgraph.out c sg t false).1 ts).1,
         (Subgraph.out c sg t false).2 ++
           (expandTrans c uL dn du st (Subgraph.out c sg t false).1 ts).2)
      else expandTrans c uL dn du st sg ts := rfl

theorem expandTrans_prefix (c : Nat) (uL : List String) (dn du : Bool)
    (st : String) : ∀ (ts : List Transition) (sg : Subgraph),
    ∃ d, (expandTrans c uL dn du st sg ts).1.seen = sg.seen ++ d := by
  intro ts
  induction ts with
  | nil => exact fun sg => ⟨[], by simp [expandTrans_nil]⟩
  | cons t ts ih =>
    intro sg
    rw [expandTrans_cons]
    split_ifs with h1 h2 h3
    · exact ih sg
    · exact ih sg
    · obtain ⟨d1, hd1⟩ := out_prefix c sg t false
      obtain ⟨d2, hd2⟩ := ih (Subgraph.out c sg t false).1
      exact ⟨d1 ++ d2, by simp only [hd2, hd1, List.append_assoc]⟩
    · exact ih sg

theorem expandTrans_nodup (c : Nat) (uL : List String) (dn du : Bool)
    (st : String) : ∀ (ts : List Transition) (sg : Subgraph),
    sg.seen.Nodup → (expandTrans c uL dn du st sg ts).1.seen.Nodup := by
  intro ts
  induction ts with
  | nil => exact fun sg h => h
  | cons t ts ih =>
    intro sg h
    rw [expandTrans_cons]
    split_ifs with h1 h2 h3
    · exact ih sg h
    · exact ih sg h
    · exact ih _ (out_nodup c sg t false h)
    · exact ih sg h

theorem expandTrans_seen_mem (c : Nat) (uL : List String) (dn du : Bool)
    (st : String) : ∀ (ts : List Transition) (sg : Subgraph) (x : String),
    x ∈ (expandTrans c uL dn du st sg ts).1.seen →
      x ∈ sg.seen ∨ ∃ t ∈ ts, x = t.fromS ∨ x = t.toS := by
  intro ts
  induction ts with
  | nil => exact fun sg x h => Or.inl h
  | cons t ts ih =>
    intro sg x hx
    rw [expandTrans_cons] at hx
    split_ifs at hx with h1 h2 h3
    · rcases ih sg x hx with h | ⟨t2, ht2, hh⟩
      · exact Or.inl h
      · exact Or.inr ⟨t2, by simp [ht2], hh⟩
    · rcases ih sg x hx with h | ⟨t2, ht2, hh⟩
      · exact Or.inl h
      · exact Or.inr ⟨t2, by simp [ht2], hh⟩
    · rcases ih _ x hx with h | ⟨t2, ht2, hh⟩
      · rw [out_seen_mem] at h
        rcases h with h | h | h
        · exact Or.inl h
        · exact Or.inr ⟨t, by simp, Or.inl (by simpa [extOf, str_append_empty] using h)⟩
        · exact Or.inr ⟨t, by simp, Or.inr h⟩
      · exact Or.inr ⟨t2, by simp [ht2], hh⟩
    · rcases ih sg x hx with h | ⟨t2, ht2, hh⟩
      · exact Or.inl h
      · exact Or.inr ⟨t2, by simp [ht2], hh⟩

theorem passFilter_iff (uL : List String) (dn du : Bool) (st : String)
    (t : Transition) : (passEdge uL dn du t && decide (st = t.fromS)) = true ↔
      ¬(t.fromS = t.toS ∧ dn = false) ∧ ¬(t.inp ∈ uL ∧ du = false) ∧
        st = t.fromS := by
  cases dn <;> cases du <;> simp [passEdge] <;> tauto

theorem expandTrans_expandedEdges (c : Nat) (uL : List String) (dn du : Bool)
    (st : String) : ∀ (ts : List Transition) (sg : Subgraph),
    expandedEdges (expandTrans c uL dn du st sg ts).2 =
      ts.filter (fun t => passEdge uL dn du t && decide (st = t.fromS)) := by
  intro ts
  induction ts with
  | nil => simp [expandTrans_nil]
  | cons t ts ih =>
    intro sg
    by_cases h1 : t.fromS = t.toS ∧ dn = false
    · rw [expandTrans_cons, if_pos h1, ih, List.filter_cons,
        if_neg fun hh => ((passFilter_iff uL dn du st t).mp hh).1 h1]
    · by_cases h2 : t.inp ∈ uL ∧ du = false
      · rw [expandTrans_cons, if_neg h1, if_pos h2, ih, List.filter_cons,
          if_neg fun hh => ((passFilter_iff uL dn du st t).mp hh).2.1 h2]
      · by_cases h3 : st = t.fromS
        · rw [expandTrans_cons, if_neg h1, if_neg h2, if_pos h3,
            List.filter_cons,
            if_pos ((passFilter_iff uL dn du st t).mpr ⟨h1, h2, h3⟩)]
          simp only [expandedEdges_append, out_expandedEdges, Bool.false_eq_true,
            if_false, List.nil_append]
          rw [ih]
          rfl
        · rw [expandTrans_cons, if_neg h1, if_neg h2, if_neg h3, ih,
            List.filter_cons,
            if_neg fun hh => h3 ((passFilter_iff uL dn du st t).mp hh).2.2]

theorem expandTrans_seen_mono (c : Nat) (uL : List String) (dn du : Bool)
    (st : String) (ts : List Transition) (sg : Subgraph) {x : String}
    (h : x ∈ sg.seen) : x ∈ (expandTrans c uL dn du st sg ts).1.seen := by
  obtain ⟨d, hd⟩ := expandTrans_prefix c uL dn du st ts sg
  rw [hd]
  exact List.mem_append_left d h

theorem expandTrans_nonsink (c : Nat) (uL : List String) (dn du : Bool)
    (st : String) : ∀ (ts : List Transition) (sg : Subgraph) (a : String),
    a ∈ (expandTrans c uL dn du st sg ts).1.nonsink ↔
      a ∈ sg.nonsink ∨ a ∈ srcKeys (expandTrans c uL dn du st sg ts).2 := by
  intro ts
  induction ts with
  | nil => simp [expandTrans_nil]
  | cons t ts ih =>
    intro sg a
    rw [expandTrans_cons]
    split_ifs with h1 h2 h3
    · exact ih sg a
    · exact ih sg a
    · simp only [srcKeys_append, List.mem_append, out_srcKeys]
      rw [ih, out_nonsink_mem]
      simp only [List.mem_singleton]
      tauto
    · exact ih sg a

theorem expandTrans_seen_iff_nodeKeys (c : Nat) (uL : List String)
    (dn du : Bool) (st : String) :
    ∀ (ts : List Transition) (sg : Subgraph) (k : String),
    k ∈ (expandTrans c uL dn du st sg ts).1.seen ↔
      k ∈ sg.seen ∨ k ∈ nodeKeys (expandTrans c uL dn du st sg ts).2 := by
  intro ts
  induction ts with
  | nil => simp [expandTrans_nil]
  | cons t ts ih =>
    intro sg k
    rw [expandTrans_cons]
    split_ifs with h1 h2 h3
    · exact ih sg k
    · exact ih sg k
    · simp only [nodeKeys_append, List.mem_append]
      rw [ih, out_seen_iff_nodeKeys]
      tauto
    · exact ih sg k

theorem expandTrans_initialEdges (c : Nat) (uL : List String) (dn du : Bool)
    (st : String) : ∀ (ts : List Transition) (sg : Subgraph),
    initialEdges (expandTrans c uL dn du st sg ts).2 = [] := by
  intro ts
  induction ts with
  | nil => simp [expandTrans_nil]
  | cons t ts ih =>
    intro sg
    rw [expandTrans_cons]
    split_ifs with h1 h2 h3
    · exact ih sg
    · exact ih sg
    · simp only [initialEdges_append, out_initialEdges, Bool.false_eq_true,
        if_false, List.nil_append]
      exact ih _
    · exact ih sg

theorem expandTrans_no_sink (c : Nat) (uL : List String) (dn du : Bool)
    (st : String) : ∀ (ts : List Transition) (sg : Subgraph) (k : String)
    (n : Nat), Ev.sinkDecl k n ∉ (expandTrans c uL dn du st sg ts).2 := by
  intro ts
  induction ts with
  | nil => simp [expandTrans_nil]
  | cons t ts ih =>
    intro sg k n
    rw [expandTrans_cons]
    split_ifs with h1 h2 h3
    · exact ih sg k n
    · exact ih sg k n
    · intro hmem
      rcases List.mem_append.mp hmem with h | h
      · exact out_no_sink c sg t false k n h
      · exact ih _ k n h
    · exact ih sg k n

theorem expandTrans_destKeys_mem (c : Nat) (uL : List String) (dn du : Bool)
    (st : String) : ∀ (ts : List Transition) (sg : Subgraph) (d : String),
    d ∈ destKeys (expandTrans c uL dn du st sg ts).2 →
      d ∈ (expandTrans c uL dn du st sg ts).1.seen := by
  intro ts
  induction ts with
  | nil => simp [expandTrans_nil]
  | cons t ts ih =>
    intro sg d hd
    rw [expandTrans_cons] at hd ⊢
    split_ifs at hd ⊢ with h1 h2 h3
    · exact ih sg d hd
    · exact ih sg d hd
    · simp only [destKeys_append, List.mem_append, out_destKeys,
        List.mem_singleton] at hd
      rcases hd with rfl | hd
      · exact expandTrans_seen_mono c uL dn du st ts _ (out_toS_mem c sg t false)
      · exact ih _ d hd
    · exact ih sg d hd

theorem expandTrans_shape (c : Nat) (uL : List String) (dn du : Bool)
    (st : String) : ∀ (ts : List Transition) (sg : Subgraph), st ∈ sg.seen →
    ∀ e ∈ (expandTrans c uL dn du st sg ts).2,
      (∃ s0, e = Ev.nodeDecl s0 (destIdent s0 c) s0) ∨
        ∃ t ∈ ts, e = Ev.edgeDecl t c false := by
  intro ts
  induction ts with
  | nil => simp [expandTrans_nil]
  | cons t ts ih =>
    intro sg hst e he
    rw [expandTrans_cons] at he
    split_ifs at he with h1 h2 h3
    · rcases ih sg hst e he with h | ⟨t2, ht2, hh⟩
      · exact Or.inl h
      · exact Or.inr ⟨t2, by simp [ht2], hh⟩
    · rcases ih sg hst e he with h | ⟨t2, ht2, hh⟩
      · exact Or.inl h
      · exact Or.inr ⟨t2, by simp [ht2], hh⟩
    · rcases List.mem_append.mp he with h | h
      · subst h3
        rcases out_shape_known c sg t hst h with h | h
        · exact Or.inl h
        · exact Or.inr ⟨t, by simp, h⟩
      · have hst2 : st ∈ (Subgraph.out c sg t false).1.seen := by
          rw [out_seen_mem]
          exact Or.inl hst
        rcases ih _ hst2 e h with hh | ⟨t2, ht2, hh⟩
        · exact Or.inl hh
        · exact Or.inr ⟨t2, by simp [ht2], hh⟩
    · rcases ih sg hst e he with h | ⟨t2, ht2, hh⟩
      · exact Or.inl h
      · exact Or.inr ⟨t2, by simp [ht2], hh⟩

theorem expandFrom_def (c : Nat) (startL uL : List String)
    (transL : List Transition) (dn du : Bool) (sg : Subgraph) (st : String) :
    expandFrom c startL uL transL dn du sg st =
      if st ∈ startL then (sg, [])
      else expandTrans c uL dn du st sg transL := rfl

/-! ### Lemmas about `expandFrom` (one worklist iteration) -/

theorem expandFrom_prefix (c : Nat) (startL uL : List String)
    (transL : List Transition) (dn du : Bool) (sg : Subgraph) (st : String) :
    ∃ d, (expandFrom c startL uL transL dn du sg st).1.seen = sg.seen ++ d := by
  rw [expandFrom_def]
  by_cases h : st ∈ startL
  · exact ⟨[], by simp [h]⟩
  · rw [if_neg h]
    exact expandTrans_prefix c uL dn du st transL sg

theorem expandFrom_nodup (c : Nat) (startL uL : List String)
    (transL : List Transition) (dn du : Bool) (sg : Subgraph) (st : String)
    (h : sg.seen.Nodup) : (expandFrom c startL uL transL dn du sg st).1.seen.Nodup := by
  rw [expandFrom_def]
  by_cases hs : st ∈ startL
  · simpa [hs] using h
  · rw [if_neg hs]
    exact expandTrans_nodup c uL dn du st transL sg h

theorem expandFrom_seen_mem (c : Nat) (startL uL : List String)
    (transL : List Transition) (dn du : Bool) (sg : Subgraph) (st : String)
    (x : String) (hx : x ∈ (expandFrom c startL uL transL dn du sg st).1.seen) :
    x ∈ sg.seen ∨ ∃ t ∈ transL, x = t.fromS ∨ x = t.toS := by
  rw [expandFrom_def] at hx
  by_cases hs : st ∈ startL
  · rw [if_pos hs] at hx
    exact Or.inl hx
  · rw [if_neg hs] at hx
    exact expandTrans_seen_mem c uL dn du st transL sg x hx

theorem expandFrom_edges (c : Nat) (startL uL : List String)
    (transL : List Transition) (dn du : Bool) (sg : Subgraph) (st : String) :
    expandedEdges (expandFrom c startL uL transL dn du sg st).2 =
      stEdges startL uL transL dn du st := by
  rw [expandFrom_def, stEdges]
  by_cases hs : st ∈ startL
  · simp [hs]
  · rw [if_neg hs, if_neg hs]
    exact expandTrans_expandedEdges c uL dn du st transL sg

theorem expandFrom_nonsink (c : Nat) (startL uL : List String)
    (transL : List Transition) (dn du : Bool) (sg : Subgraph) (st : String)
    (a : String) : a ∈ (expandFrom c startL uL transL dn du sg st).1.nonsink ↔
      a ∈ sg.nonsink ∨ a ∈ srcKeys (expandFrom c startL uL transL dn du sg st).2 := by
  rw [expandFrom_def]
  by_cases hs : st ∈ startL
  · simp [hs]
  · rw [if_neg hs]
    exact expandTrans_nonsink c uL dn du st transL sg a

theorem expandFrom_seen_iff_nodeKeys (c : Nat) (startL uL : List String)
    (transL : List Transition) (dn du : Bool) (sg : Subgraph) (st : String)
    (k : String) : k ∈ (expandFrom c startL uL transL dn du sg st).1.seen ↔
      k ∈ sg.seen ∨ k ∈ nodeKeys (expandFrom c startL uL transL dn du sg st).2 := by
  rw [expandFrom_def]
  by_cases hs : st ∈ startL
  · simp [hs]
  · rw [if_neg hs]
    exact expandTrans_seen_iff_nodeKeys c uL dn du st transL sg k

theorem expandFrom_initialEdges (c : Nat) (startL uL : List String)
    (transL : List Transition) (dn du : Bool) (sg : Subgraph) (st : String) :
    initialEdges (expandFrom c startL uL transL dn du sg st).2 = [] := by
  rw [expandFrom_def]
  by_cases hs : st ∈ startL
  · simp [hs]
  · rw [if_neg hs]
    exact expandTrans_initialEdges c uL dn du st transL sg

theorem expandFrom_no_sink (c : Nat) (startL uL : List String)
    (transL : List Transition) (dn du : Bool) (sg : Subgraph) (st : String)
    (k : String) (n : Nat) :
    Ev.sinkDecl k n ∉ (expandFrom c startL uL transL dn du sg st).2 := by
  rw [expandFrom_def]
  by_cases hs : st ∈ startL
  · simp [hs]
  · rw [if_neg hs]
    exact expandTrans_no_sink c uL dn du st transL sg k n

theorem expandFrom_destKeys_mem (c : Nat) (startL uL : List String)
    (transL : List Transition) (dn du : Bool) (sg : Subgraph) (st : String)
    (d : String) (hd : d ∈ destKeys (expandFrom c startL uL transL dn du sg st).2) :
    d ∈ (expandFrom c startL uL transL dn du sg st).1.seen := by
  rw [expandFrom_def] at hd ⊢
  by_cases hs : st ∈ startL
  · rw [if_pos hs] at hd
    simp at hd
  · rw [if_neg hs] at hd ⊢
    exact expandTrans_destKeys_mem c uL dn du st transL sg d hd

theorem expandFrom_shape (c : Nat) (startL uL : List String)
    (transL : List Transition) (dn du : Bool) (sg : Subgraph) (st : String)
    (hst : st ∈ sg.seen) {e : Ev}
    (he : e ∈ (expandFrom c startL uL transL dn du sg st).2) :
    (∃ s0, e = Ev.nodeDecl s0 (destIdent s0 c) s0) ∨
      ∃ t ∈ transL, e = Ev.edgeDecl t c false := by
  rw [expandFrom_def] at he
  by_cases hs : st ∈ startL
  · rw [if_pos hs] at he
    simp at he
  · rw [if_neg hs] at he
    exact expandTrans_shape c uL dn du st transL sg hst e he

/-! ### The worklist loop: master specification -/

theorem expandLoop_zero (c : Nat) (startL uL : List String)
    (transL : List Transition) (dn du : Bool) (cur : Nat) (sg : Subgraph) :
    expandLoop c startL uL transL dn du 0 cur sg = (sg, []) := rfl

theorem expandLoop_succ (c : Nat) (startL uL : List String)
    (transL : List Transition) (dn du : Bool) (fuel cur : Nat) (sg : Subgraph) :
    expandLoop c startL uL transL dn du (fuel + 1) cur sg =
      if h : cur < sg.seen.length then
        ((expandLoop c startL uL transL dn du fuel (cur + 1)
            (expandFrom c startL uL transL dn du sg (sg.seen.get ⟨cur, h⟩)).1).1,
         (expandFrom c startL uL transL dn du sg (sg.seen.get ⟨cur, h⟩)).2 ++
           (expandLoop c startL uL transL dn du fuel (cur + 1)
             (expandFrom c startL uL transL dn du sg (sg.seen.get ⟨cur, h⟩)).1).2)
      else (sg, []) := rfl

theorem get_prefix_eq {α : Type} {l m d : List α} (hpre : m = l ++ d)
    {i : Nat} (h1 : i < l.length) (h2 : i < m.length) :
    m.get ⟨i, h2⟩ = l.get ⟨i, h1⟩ := by
  subst hpre
  simp only [List.get_eq_getElem]
  exact List.getElem_append_left h1

theorem expandLoop_spec (c : Nat) (startL uL : List String)
    (transL : List Transition) (dn du : Bool) (A : List String)
    (hA : ∀ t ∈ transL, t.fromS ∈ A ∧ t.toS ∈ A) :
    ∀ (fuel cur : Nat) (sg : Subgraph), sg.seen.Nodup →
    (∀ x ∈ sg.seen, x ∈ A) → A.dedup.length ≤ cur + fuel →
    (∃ d, (expandLoop c startL uL transL dn du fuel cur sg).1.seen = sg.seen ++ d) ∧
    (expandLoop c startL uL transL dn du fuel cur sg).1.seen.Nodup ∧
    (∀ x ∈ (expandLoop c startL uL transL dn du fuel cur sg).1.seen, x ∈ A) ∧
    expandedEdges (expandLoop c startL uL transL dn du fuel cur sg).2 =
      listFlat (stEdges startL uL transL dn du)
        ((expandLoop c startL uL transL dn du fuel cur sg).1.seen.drop cur) ∧
    (∀ a, a ∈ (expandLoop c startL uL transL dn du fuel cur sg).1.nonsink ↔
      a ∈ sg.nonsink ∨ a ∈ srcKeys (expandLoop c startL uL transL dn du fuel cur sg).2) ∧
    (∀ k, k ∈ (expandLoop c startL uL transL dn du fuel cur sg).1.seen ↔
      k ∈ sg.seen ∨ k ∈ nodeKeys (expandLoop c startL uL transL dn du fuel cur sg).2) ∧
    (∀ e ∈ (expandLoop c startL uL transL dn du fuel cur sg).2,
      (∃ s0, e = Ev.nodeDecl s0 (destIdent s0 c) s0) ∨
        ∃ t ∈ transL, e = Ev.edgeDecl t c false) ∧
    (∀ d2 ∈ destKeys (expandLoop c startL uL transL dn du fuel cur sg).2,
      d2 ∈ (expandLoop c startL uL transL dn du fuel cur sg).1.seen) := by
  intro fuel
  induction fuel with
  | zero =>
    intro cur sg hnd hsub hfuel
    rw [expandLoop_zero]
    have hlen : sg.seen.length ≤ cur :=
      le_trans (nodup_length_le_dedup hnd hsub) (by omega)
    have hdrop : sg.seen.drop cur = [] := List.drop_eq_nil_of_le hlen
    refine ⟨⟨[], by simp⟩, hnd, hsub, ?_, ?_, ?_, ?_, ?_⟩
    · simp [hdrop, listFlat]
    · simp
    · simp
    · simp
    · simp
  | succ fuel ih =>
    intro cur sg hnd hsub hfuel
    rw [expandLoop_succ]
    by_cases h : cur < sg.seen.length
    · rw [dif_pos h]
      have hst : sg.seen.get ⟨cur, h⟩ ∈ sg.seen := sg.seen.get_mem cur h
      obtain ⟨d1, hd1⟩ := expandFrom_prefix c startL uL transL dn du sg
        (sg.seen.get ⟨cur, h⟩)
      have hnd1 := expandFrom_nodup c startL uL transL dn du sg
        (sg.seen.get ⟨cur, h⟩) hnd
      have hsub1 : ∀ x ∈ (expandFrom c startL uL transL dn du sg
          (sg.seen.get ⟨cur, h⟩)).1.seen, x ∈ A := by
        intro x hx
        rcases expandFrom_seen_mem c startL uL transL dn du sg
          (sg.seen.get ⟨cur, h⟩) x hx with hh | ⟨t, ht, rfl | rfl⟩
        · exact hsub x hh
        · exact (hA t ht).1
        · exact (hA t ht).2
      obtain ⟨⟨d2, hd2⟩, hnd2, hsub2, hedges2, hns2, hnk2, hshape2, hdest2⟩ :=
        ih (cur + 1)
          (expandFrom c startL uL transL dn du sg (sg.seen.get ⟨cur, h⟩)).1
          hnd1 hsub1 (by omega)
      have hpre : (expandLoop c startL uL transL dn du fuel (cur + 1)
          (expandFrom c startL uL transL dn du sg (sg.seen.get ⟨cur, h⟩)).1).1.seen =
          sg.seen ++ (d1 ++ d2) := by
        rw [hd2, hd1, List.append_assoc]
      have hcurlt : cur < (expandLoop c startL uL transL dn du fuel (cur + 1)
          (expandFrom c startL uL transL dn du sg (sg.seen.get ⟨cur, h⟩)).1).1.seen.length := by
        rw [hpre, List.length_append]
        omega
      have hgetfin : (expandLoop c startL uL transL dn du fuel (cur + 1)
          (expandFrom c startL uL transL dn du sg
            (sg.seen.get ⟨cur, h⟩)).1).1.seen.get ⟨cur, hcurlt⟩ =
          sg.seen.get ⟨cur, h⟩ := get_prefix_eq hpre h hcurlt
      refine ⟨⟨d1 ++ d2, hpre⟩, hnd2, hsub2, ?_, ?_, ?_, ?_, ?_⟩
      · simp only [expandedEdges_append]
        rw [expandFrom_edges, hedges2, List.drop_eq_getElem_cons hcurlt]
        simp only [listFlat]
        congr 1
        exact (congrArg (stEdges startL uL transL dn du) hgetfin).symm
      · intro a
        simp only [srcKeys_append, List.mem_append]
        rw [hns2, expandFrom_nonsink]
        tauto
      · intro k
        simp only [nodeKeys_append, List.mem_append]
        rw [hnk2, expandFrom_seen_iff_nodeKeys]
        tauto
      · intro e he
        rcases List.mem_append.mp he with hh | hh
        · exact expandFrom_shape c startL uL transL dn du sg _ hst hh
        · exact hshape2 e hh
      · intro d2x hd2x
        simp only [destKeys_append, List.mem_append] at hd2x
        show d2x ∈ (expandLoop c startL uL transL dn du fuel (cur + 1)
          (expandFrom c startL uL transL dn du sg (sg.seen.get ⟨cur, h⟩)).1).1.seen
        rcases hd2x with hh | hh
        · have hmem := expandFrom_destKeys_mem c startL uL transL dn du sg
            (sg.seen.get ⟨cur, h⟩) d2x hh
          rw [hd2]
          exact List.mem_append_left _ hmem
        · exact hdest2 d2x hh
    · rw [dif_neg h]
      have hdrop : sg.seen.drop cur = [] := List.drop_eq_nil_of_le (by omega)
      refine ⟨⟨[], by simp⟩, hnd, hsub, ?_, ?_, ?_, ?_, ?_⟩
      · simp [hdrop, listFlat]
      · simp
      · simp
      · simp
      · simp

theorem expandLoop_fuel_succ (c : Nat) (startL uL : List String)
    (transL : List Transition) (dn du : Bool) (A : List String)
    (hA : ∀ t ∈ transL, t.fromS ∈ A ∧ t.toS ∈ A) :
    ∀ (fuel cur : Nat) (sg : Subgraph), sg.seen.Nodup →
    (∀ x ∈ sg.seen, x ∈ A) → A.dedup.length ≤ cur + fuel →
    expandLoop c startL uL transL dn du (fuel + 1) cur sg =
      expandLoop c startL uL transL dn du fuel cur sg := by
  intro fuel
  induction fuel with
  | zero =>
    intro cur sg hnd hsub hfuel
    rw [expandLoop_succ, expandLoop_zero, dif_neg]
    intro hlt
    have := nodup_length_le_dedup hnd hsub
    omega
  | succ fuel ih =>
    intro cur sg hnd hsub hfuel
    by_cases h : cur < sg.seen.length
    · rw [expandLoop_succ c startL uL transL dn du (fuel + 1) cur sg,
        expandLoop_succ c startL uL transL dn du fuel cur sg,
        dif_pos h, dif_pos h]
      have hnd1 := expandFrom_nodup c startL uL transL dn du sg
        (sg.seen.get ⟨cur, h⟩) hnd
      have hsub1 : ∀ x ∈ (expandFrom c startL uL transL dn du sg
          (sg.seen.get ⟨cur, h⟩)).1.seen, x ∈ A := by
        intro x hx
        rcases expandFrom_seen_mem c startL uL transL dn du sg
          (sg.seen.get ⟨cur, h⟩) x hx with hh | ⟨t, ht, rfl | rfl⟩
        · exact hsub x hh
        · exact (hA t ht).1
        · exact (hA t ht).2
      rw [ih (cur + 1) _ hnd1 hsub1 (by omega)]
    · rw [expandLoop_succ c startL uL transL dn du (fuel + 1) cur sg,
        expandLoop_succ c startL uL transL dn du fuel cur sg,
        dif_neg h, dif_neg h]

theorem expandLoop_fuel_add (c : Nat) (startL uL : List String)
    (transL : List Transition) (dn du : Bool) (A : List String)
    (hA : ∀ t ∈ transL, t.fromS ∈ A ∧ t.toS ∈ A) :
    ∀ (k fuel cur : Nat) (sg : Subgraph), sg.seen.Nodup →
    (∀ x ∈ sg.seen, x ∈ A) → A.dedup.length ≤ cur + fuel →
    expandLoop c startL uL transL dn du (fuel + k) cur sg =
      expandLoop c startL uL transL dn du fuel cur sg := by
  intro k
  induction k with
  | zero => intro fuel cur sg _ _ _; rfl
  | succ k ih =>
    intro fuel cur sg hnd hsub hfuel
    have h1 : fuel + (k + 1) = (fuel + k) + 1 := by omega
    rw [h1, expandLoop_fuel_succ c startL uL transL dn du A hA (fuel + k) cur sg
      hnd hsub (by omega)]
    exact ih fuel cur sg hnd hsub hfuel

/-! ### `Subgraph.start`: assembling the per-invocation facts -/

theorem start_def (count : Nat) (startL uL : List String)
    (transL : List Transition) (startT : Transition) (dn du : Bool)
    (fuel : Nat) : Subgraph.start count startL uL transL startT dn du fuel =
      ((expandLoop count startL uL transL dn du fuel 1
          (Subgraph.out count ⟨[], []⟩ startT true).1).1,
       (Subgraph.out count ⟨[], []⟩ startT true).2 ++
         (expandLoop count startL uL transL dn du fuel 1
           (Subgraph.out count ⟨[], []⟩ startT true).1).2 ++
         ((expandLoop count startL uL transL dn du fuel 1
              (Subgraph.out count ⟨[], []⟩ startT true).1).1.seen.filter
            (fun o => decide (o ∉ (expandLoop count startL uL transL dn du fuel 1
              (Subgraph.out count ⟨[], []⟩ startT true).1).1.nonsink))).map
           (fun o => Ev.sinkDecl o count)) := rfl

theorem allowed_closure (startT : Transition) (transL : List Transition) :
    ∀ t ∈ transL, t.fromS ∈ allowedStates startT transL ∧
      t.toS ∈ allowedStates startT transL := by
  intro t ht
  constructor
  · exact List.mem_cons_of_mem _ (List.mem_cons_of_mem _
      (mem_listFlat.mpr ⟨t, ht, by simp⟩))
  · exact List.mem_cons_of_mem _ (List.mem_cons_of_mem _
      (mem_listFlat.mpr ⟨t, ht, by simp⟩))

theorem out_nil_seen_mem (count : Nat) (startT : Transition) (x : String) :
    x ∈ (Subgraph.out count ⟨[], []⟩ startT true).1.seen ↔
      x = startT.fromS ++ "_O" ∨ x = startT.toS := by
  rw [out_seen_mem]
  simp [extOf]

theorem out_nil_nodup (count : Nat) (startT : Transition) :
    (Subgraph.out count ⟨[], []⟩ startT true).1.seen.Nodup :=
  out_nodup count ⟨[], []⟩ startT true List.nodup_nil

theorem out_nil_sub (count : Nat) (startT : Transition)
    (transL : List Transition) :
    ∀ x ∈ (Subgraph.out count ⟨[], []⟩ startT true).1.seen,
      x ∈ allowedStates startT transL := by
  intro x hx
  rcases (out_nil_seen_mem count startT x).mp hx with rfl | rfl
  · exact List.mem_cons_self _ _
  · exact List.mem_cons_of_mem _ (List.mem_cons_self _ _)

theorem startLoop_spec (count : Nat) (startL uL : List String)
    (transL : List Transition) (startT : Transition) (dn du : Bool) :
    (∃ d, (expandLoop count startL uL transL dn du (startFuel startT transL) 1
        (Subgraph.out count ⟨[], []⟩ startT true).1).1.seen =
        (Subgraph.out count ⟨[], []⟩ startT true).1.seen ++ d) ∧
    (expandLoop count startL uL transL dn du (startFuel startT transL) 1
        (Subgraph.out count ⟨[], []⟩ startT true).1).1.seen.Nodup ∧
    (∀ x ∈ (expandLoop count startL uL transL dn du (startFuel startT transL) 1
        (Subgraph.out count ⟨[], []⟩ startT true).1).1.seen,
        x ∈ allowedStates startT transL) ∧
    expandedEdges (expandLoop count startL uL transL dn du
        (startFuel startT transL) 1
        (Subgraph.out count ⟨[], []⟩ startT true).1).2 =
      listFlat (stEdges startL uL transL dn du)
        ((expandLoop count startL uL transL dn du (startFuel startT transL) 1
          (Subgraph.out count ⟨[], []⟩ startT true).1).1.seen.drop 1) ∧
    (∀ a, a ∈ (expandLoop count startL uL transL dn du
        (startFuel startT transL) 1
        (Subgraph.out count ⟨[], []⟩ startT true).1).1.nonsink ↔
      a ∈ (Subgraph.out count ⟨[], []⟩ startT true).1.nonsink ∨
        a ∈ srcKeys (expandLoop count startL uL transL dn du
          (startFuel startT transL) 1
          (Subgraph.out count ⟨[], []⟩ startT true).1).2) ∧
    (∀ k, k ∈ (expandLoop count startL uL transL dn du
        (startFuel startT transL) 1
        (Subgraph.out count ⟨[], []⟩ startT true).1).1.seen ↔
      k ∈ (Subgraph.out count ⟨[], []⟩ startT true).1.seen ∨
        k ∈ nodeKeys (expandLoop count startL uL transL dn du
          (startFuel startT transL) 1
          (Subgraph.out count ⟨[], []⟩ startT true).1).2) ∧
    (∀ e ∈ (expandLoop count startL uL transL dn du
        (startFuel startT transL) 1
        (Subgraph.out count ⟨[], []⟩ startT true).1).2,
      (∃ s0, e = Ev.nodeDecl s0 (destIdent s0 count) s0) ∨
        ∃ t ∈ transL, e = Ev.edgeDecl t count false) ∧
    (∀ d2 ∈ destKeys (expandLoop count startL uL transL dn du
        (startFuel startT transL) 1
        (Subgraph.out count ⟨[], []⟩ startT true).1).2,
      d2 ∈ (expandLoop count startL uL transL dn du (startFuel startT transL) 1
        (Subgraph.out count ⟨[], []⟩ startT true).1).1.seen) :=
  expandLoop_spec count startL uL transL dn du (allowedStates startT transL)
    (allowed_closure startT transL) (startFuel startT transL) 1
    (Subgraph.out count ⟨[], []⟩ startT true).1
    (out_nil_nodup count startT) (out_nil_sub count startT transL)
    (by rw [startFuel]; omega)

theorem initialEdges_sinkMap (l : List String) (c : Nat) :
    initialEdges (l.map (fun o => Ev.sinkDecl o c)) = [] := by
  induction l with
  | nil => rfl
  | cons a l ih => simpa using ih

theorem expandedEdges_sinkMap (l : List String) (c : Nat) :
    expandedEdges (l.map (fun o => Ev.sinkDecl o c)) = [] := by
  induction l with
  | nil => rfl
  | cons a l ih => simpa using ih

theorem srcKeys_sinkMap (l : List String) (c : Nat) :
    srcKeys (l.map (fun o => Ev.sinkDecl o c)) = [] := by
  induction l with
  | nil => rfl
  | cons a l ih => simpa using ih

theorem destKeys_sinkMap (l : List String) (c : Nat) :
    destKeys (l.map (fun o => Ev.sinkDecl o c)) = [] := by
  induction l with
  | nil => rfl
  | cons a l ih => simpa using ih

theorem nodeKeys_sinkMap (l : List String) (c : Nat) :
    nodeKeys (l.map (fun o => Ev.sinkDecl o c)) = [] := by
  induction l with
  | nil => rfl
  | cons a l ih => simpa using ih

theorem initialEdges_of_shape {evs : List Ev} {c : Nat}
    {transL : List Transition}
    (h : ∀ e ∈ evs, (∃ s0, e = Ev.nodeDecl s0 (destIdent s0 c) s0) ∨
      ∃ t ∈ transL, e = Ev.edgeDecl t c false) : initialEdges evs = [] := by
  apply listFlat_nil_of_forall
  intro e he
  rcases h e he with ⟨s0, rfl⟩ | ⟨t, _, rfl⟩ <;> rfl

theorem no_sink_of_shape {evs : List Ev} {c : Nat} {transL : List Transition}
    (h : ∀ e ∈ evs, (∃ s0, e = Ev.nodeDecl s0 (destIdent s0 c) s0) ∨
      ∃ t ∈ transL, e = Ev.edgeDecl t c false) (key : String) (n : Nat) :
    Ev.sinkDecl key n ∉ evs := by
  intro hmem
  rcases h _ hmem with ⟨s0, hh⟩ | ⟨t, _, hh⟩ <;> exact absurd hh (by simp)

theorem out_nil_seen_cons (count : Nat) (startT : Transition) :
    ∃ rest, (Subgraph.out count ⟨[], []⟩ startT true).1.seen =
      (startT.fromS ++ "_O") :: rest := by
  rw [out_def]
  have hext : extOf true = "_O" := rfl
  rw [hext]
  rw [appendIfNew_neg _ _ (List.not_mem_nil _)]
  by_cases h2 : startT.toS ∈ ([] ++ [startT.fromS ++ "_O"] : List String)
  · rw [appendIfNew_pos _ _ h2]
    exact ⟨[], rfl⟩
  · rw [appendIfNew_neg _ _ h2]
    exact ⟨[startT.toS], rfl⟩

theorem sgStart_unfold (count : Nat) (startL uL : List String)
    (transL : List Transition) (startT : Transition) (dn du : Bool) :
    sgStart count startL uL transL startT dn du =
      Subgraph.start count startL uL transL startT dn du
        (startFuel startT transL) := rfl

theorem sgStart_fst (count : Nat) (startL uL : List String)
    (transL : List Transition) (startT : Transition) (dn du : Bool) :
    (sgStart count startL uL transL startT dn du).1 =
      (expandLoop count startL uL transL dn du (startFuel startT transL) 1
        (Subgraph.out count ⟨[], []⟩ startT true).1).1 := rfl

theorem sgStart_snd (count : Nat) (startL uL : List String)
    (transL : List Transition) (startT : Transition) (dn du : Bool) :
    (sgStart count startL uL transL startT dn du).2 =
      (Subgraph.out count ⟨[], []⟩ startT true).2 ++
        (expandLoop count startL uL transL dn du (startFuel startT transL) 1
          (Subgraph.out count ⟨[], []⟩ startT true).1).2 ++
        ((expandLoop count startL uL transL dn du (startFuel startT transL) 1
            (Subgraph.out count ⟨[], []⟩ startT true).1).1.seen.filter
          (fun o => decide (o ∉ (expandLoop count startL uL transL dn du
            (startFuel startT transL) 1
            (Subgraph.out count ⟨[], []⟩ startT true).1).1.nonsink))).map
          (fun o => Ev.sinkDecl o count) := rfl

theorem sgStart_nodup (count : Nat) (startL uL : List String)
    (transL : List Transition) (startT : Transition) (dn du : Bool) :
    (sgStart count startL uL transL startT dn du).1.seen.Nodup :=
  (startLoop_spec count startL uL transL startT dn du).2.1

theorem sgStart_seen_sub (count : Nat) (startL uL : List String)
    (transL : List Transition) (startT : Transition) (dn du : Bool) :
    ∀ x ∈ (sgStart count startL uL transL startT dn du).1.seen,
      x ∈ allowedStates startT transL :=
  (startLoop_spec count startL uL transL startT dn du).2.2.1

theorem sgStart_initialEdges (count : Nat) (startL uL : List String)
    (transL : List Transition) (startT : Transition) (dn du : Bool) :
    initialEdges (sgStart count startL uL transL startT dn du).2 = [startT] := by
  rw [sgStart_snd]
  simp only [initialEdges_append, initialEdges_sinkMap, List.append_nil]
  rw [out_initialEdges, if_pos rfl,
    initialEdges_of_shape (startLoop_spec count startL uL transL startT dn du).2.2.2.2.2.2.1]
  simp

theorem sgStart_expandedEdges (count : Nat) (startL uL : List String)
    (transL : List Transition) (startT : Transition) (dn du : Bool) :
    expandedEdges (sgStart count startL uL transL startT dn du).2 =
      listFlat (stEdges startL uL transL dn du)
        ((sgStart count startL uL transL startT dn du).1.seen.drop 1) := by
  rw [sgStart_snd, sgStart_fst]
  simp only [expandedEdges_append, expandedEdges_sinkMap, List.append_nil]
  rw [out_expandedEdges, if_pos rfl,
    (startLoop_spec count startL uL transL startT dn du).2.2.2.1]
  simp

theorem sgStart_nonsink_iff (count : Nat) (startL uL : List String)
    (transL : List Transition) (startT : Transition) (dn du : Bool)
    (a : String) : a ∈ (sgStart count startL uL transL startT dn du).1.nonsink ↔
      a ∈ srcKeys (sgStart count startL uL transL startT dn du).2 := by
  rw [sgStart_snd, sgStart_fst]
  simp only [srcKeys_append, srcKeys_sinkMap, List.append_nil, List.mem_append]
  rw [(startLoop_spec count startL uL transL startT dn du).2.2.2.2.1 a,
    out_nonsink_mem, out_srcKeys]
  simp only [Subgraph.nonsink, List.not_mem_nil, or_false, List.mem_singleton]

theorem sgStart_seen_iff_nodeKeys (count : Nat) (startL uL : List String)
    (transL : List Transition) (startT : Transition) (dn du : Bool)
    (k : String) : k ∈ (sgStart count startL uL transL startT dn du).1.seen ↔
      k ∈ nodeKeys (sgStart count startL uL transL startT dn du).2 := by
  rw [sgStart_snd, sgStart_fst]
  simp only [nodeKeys_append, nodeKeys_sinkMap, List.append_nil, List.mem_append]
  rw [(startLoop_spec count startL uL transL startT dn du).2.2.2.2.2.1 k,
    out_seen_iff_nodeKeys]
  simp only [Subgraph.seen, List.not_mem_nil, false_or]

theorem sgStart_sink_iff (count : Nat) (startL uL : List String)
    (transL : List Transition) (startT : Transition) (dn du : Bool)
    (key : String) (n : Nat) :
    Ev.sinkDecl key n ∈ (sgStart count startL uL transL startT dn du).2 ↔
      n = count ∧ key ∈ (sgStart count startL uL transL startT dn du).1.seen ∧
        key ∉ (sgStart count startL uL transL startT dn du).1.nonsink := by
  rw [sgStart_snd, sgStart_fst]
  simp only [List.mem_append]
  constructor
  · rintro ((h | h) | h)
    · exact absurd h (out_no_sink count ⟨[], []⟩ startT true key n)
    · exact absurd h (no_sink_of_shape
        (startLoop_spec count startL uL transL startT dn du).2.2.2.2.2.2.1 key n)
    · rcases List.mem_map.mp h with ⟨o, ho, hoe⟩
      have hinj : o = key ∧ count = n := by
        constructor
        · exact (Ev.sinkDecl.injEq _ _ _ _).mp hoe |>.1
        · exact (Ev.sinkDecl.injEq _ _ _ _).mp hoe |>.2
      obtain ⟨rfl, rfl⟩ := hinj
      rcases List.mem_filter.mp ho with ⟨hseen, hdec⟩
      exact ⟨rfl, hseen, by simpa using hdec⟩
  · rintro ⟨rfl, hseen, hns⟩
    refine Or.inr (List.mem_map.mpr ⟨key, ?_, rfl⟩)
    exact List.mem_filter.mpr ⟨hseen, by simpa using hns⟩

theorem sgStart_dest_mem (count : Nat) (startL uL : List String)
    (transL : List Transition) (startT : Transition) (dn du : Bool)
    (d : String) (hd : d ∈ destKeys (sgStart count startL uL transL startT dn du).2) :
    d ∈ (sgStart count startL uL transL startT dn du).1.seen := by
  rw [sgStart_snd] at hd
  rw [sgStart_fst]
  simp only [destKeys_append, destKeys_sinkMap, List.append_nil,
    List.mem_append, out_destKeys, List.mem_singleton] at hd
  rcases hd with rfl | hd
  · obtain ⟨dd, hdd⟩ :=
      (startLoop_spec count startL uL transL startT dn du).1
    rw [hdd]
    exact List.mem_append_left _ (out_toS_mem count ⟨[], []⟩ startT true)
  · exact (startLoop_spec count startL uL transL startT dn du).2.2.2.2.2.2.2 d hd

theorem sgStart_node_shape (count : Nat) (startL uL : List String)
    (transL : List Transition) (startT : Transition) (dn du : Bool)
    {k i l : String}
    (h : Ev.nodeDecl k i l ∈ (sgStart count startL uL transL startT dn du).2) :
    (k = startT.fromS ++ "_O" ∧ i = srcIdent startT.fromS count "_O" ∧
      l = startT.fromS) ∨ (k = l ∧ i = destIdent l count) := by
  rw [sgStart_snd] at h
  simp only [List.mem_append] at h
  rcases h with (h | h) | h
  · rcases out_node_shape count ⟨[], []⟩ startT true h with
      ⟨hk, hi, hl⟩ | ⟨hk, hi, hl⟩
    · left
      subst hl
      refine ⟨by simpa [extOf] using hk, by simpa [extOf] using hi, rfl⟩
    · right
      subst hl
      exact ⟨hk.trans rfl, by simpa using hi⟩
  · rcases (startLoop_spec count startL uL transL startT dn du).2.2.2.2.2.2.1
        _ h with ⟨s0, hs0⟩ | ⟨t, _, hh⟩
    · right
      simp only [Ev.nodeDecl.injEq] at hs0
      obtain ⟨rfl, hi, rfl⟩ := hs0
      exact ⟨rfl, hi⟩
    · exact absurd hh (by simp)
  · rcases List.mem_map.mp h with ⟨o, _, hoe⟩
    exact absurd hoe (by simp)

theorem sgStart_origin_node_mem (count : Nat) (startL uL : List String)
    (transL : List Transition) (startT : Transition) (dn du : Bool) :
    Ev.nodeDecl (startT.fromS ++ "_O") (srcIdent startT.fromS count "_O")
      startT.fromS ∈ (sgStart count startL uL transL startT dn du).2 := by
  rw [sgStart_snd]
  refine List.mem_append_left _ (List.mem_append_left _ ?_)
  rw [out_def]
  have hext : extOf true = "_O" := rfl
  rw [hext, appendIfNew_neg _ _ (List.not_mem_nil _)]
  simp

theorem sgStart_origin_nonsink (count : Nat) (startL uL : List String)
    (transL : List Transition) (startT : Transition) (dn du : Bool) :
    (startT.fromS ++ "_O") ∈
      (sgStart count startL uL transL startT dn du).1.nonsink := by
  rw [sgStart_fst]
  rw [(startLoop_spec count startL uL transL startT dn du).2.2.2.2.1]
  left
  rw [out_nonsink_mem]
  left
  rfl

theorem sgStart_head (count : Nat) (startL uL : List String)
    (transL : List Transition) (startT : Transition) (dn du : Bool) :
    (sgStart count startL uL transL startT dn du).1.seen.head? =
      some (startT.fromS ++ "_O") := by
  rw [sgStart_fst]
  obtain ⟨rest, hrest⟩ := out_nil_seen_cons count startT
  obtain ⟨d, hd⟩ := (startLoop_spec count startL uL transL startT dn du).1
  rw [hd, hrest]
  rfl

theorem sgStart_stability (count : Nat) (startL uL : List String)
    (transL : List Transition) (startT : Transition) (dn du : Bool) (k : Nat) :
    Subgraph.start count startL uL transL startT dn du
        (startFuel startT transL + k) =
      sgStart count startL uL transL startT dn du := by
  rw [sgStart_unfold, start_def, start_def]
  rw [expandLoop_fuel_add count startL uL transL dn du
    (allowedStates startT transL) (allowed_closure startT transL) k
    (startFuel startT transL) 1 (Subgraph.out count ⟨[], []⟩ startT true).1
    (out_nil_nodup count startT) (out_nil_sub count startT transL)
    (by rw [startFuel]; omega)]

/-! ### Counting the expanded edges (for the exactness claim) -/

theorem passEdge_default_iff (uL : List String) (t : Transition) :
    passEdge uL false false t = true ↔ ¬t.fromS = t.toS ∧ t.inp ∉ uL := by
  simp [passEdge]

theorem mem_stEdges {startL uL : List String} {transL : List Transition}
    {dn du : Bool} {st : String} {t : Transition} :
    t ∈ stEdges startL uL transL dn du st ↔
      st ∉ startL ∧ t ∈ transL ∧
        (passEdge uL dn du t && decide (st = t.fromS)) = true := by
  rw [stEdges]
  by_cases h : st ∈ startL
  · simp [h]
  · simp [h, List.mem_filter]

theorem countT_stEdges (startL uL : List String) (transL : List Transition)
    (dn du : Bool) (st : String) (x : Transition) :
    countT x (stEdges startL uL transL dn du st) =
      if st ∉ startL ∧ passEdge uL dn du x = true ∧ st = x.fromS then
        countT x transL else 0 := by
  rw [stEdges]
  by_cases h : st ∈ startL
  · simp [h, countT]
  · rw [if_neg h, countT_filter]
    by_cases hp : passEdge uL dn du x = true
    · by_cases hst : st = x.fromS
      · rw [if_pos (by simp [hp, hst]), if_pos ⟨h, hp, hst⟩]
      · rw [if_neg (by simp [hst]), if_neg (by tauto)]
    · rw [if_neg (by simp [hp]), if_neg (by tauto)]

theorem countT_listFlat_stEdges (startL uL : List String)
    (transL : List Transition) (dn du : Bool) (x : Transition) :
    ∀ (l : List String), l.Nodup →
    countT x (listFlat (stEdges startL uL transL dn du) l) =
      if x.fromS ∈ l ∧ x.fromS ∉ startL ∧ passEdge uL dn du x = true then
        countT x transL else 0 := by
  intro l
  induction l with
  | nil => simp [listFlat, countT]
  | cons s l ih =>
    intro hnd
    rw [List.nodup_cons] at hnd
    simp only [listFlat, countT_append, countT_stEdges, ih hnd.2]
    by_cases hs : s = x.fromS
    · by_cases hc : s ∉ startL ∧ passEdge uL dn du x = true
      · rw [if_pos ⟨hc.1, hc.2, hs⟩, if_neg (by
          rintro ⟨hmem, -, -⟩
          exact hnd.1 (hs ▸ hmem)), if_pos ⟨List.mem_cons.mpr (Or.inl hs.symm),
            by rw [← hs]; exact hc.1, hc.2⟩]
        omega
      · rw [if_neg (by rintro ⟨h1, h2, -⟩; exact hc ⟨h1, h2⟩), if_neg (by
          rintro ⟨hmem, -, -⟩
          exact hnd.1 (hs ▸ hmem)), if_neg (by
          rintro ⟨-, h1, h2⟩
          exact hc ⟨by rw [hs]; exact h1, h2⟩)]
    · rw [if_neg (by rintro ⟨-, -, h3⟩; exact hs h3)]
      by_cases hc : x.fromS ∈ l ∧ x.fromS ∉ startL ∧ passEdge uL dn du x = true
      · rw [if_pos hc, if_pos ⟨List.mem_cons_of_mem s hc.1, hc.2.1, hc.2.2⟩]
        omega
      · rw [if_neg hc, if_neg (by
          rintro ⟨hmem, h1, h2⟩
          rcases List.mem_cons.mp hmem with hh | hh
          · exact hs hh.symm
          · exact hc ⟨hh, h1, h2⟩)]

theorem dedup_cons_le [DecidableEq α] (a : α) (m : List α) :
    (a :: m).dedup.length ≤ 1 + m.dedup.length := by
  by_cases h : a ∈ m
  · rw [List.dedup_cons_of_mem h]
    omega
  · rw [List.dedup_cons_of_not_mem h]
    simp [Nat.add_comm]

/-! ### Claim theorems: the cluster builder -/

/-- C1: for every Transition Set and every Cluster Builder invocation with
default flags, the multiset of expanded (non-initial) edges emitted is
exactly the set of transitions whose from-state is a non-origin entry of
the final seen-list, is not a Start State, which are not self-loops, and
whose input is not unusual; each such transition is emitted exactly once
and no other expanded edge exists. -/
theorem c1_expanded_edges_exact (count : Nat) (startL uL : List String)
    (transL : List Transition) (startT : Transition) :
    List.Perm
      (expandedEdges (sgStart count startL uL transL startT false false).2)
      (transL.filter (fun t =>
        decide (t.fromS ∈
          (sgStart count startL uL transL startT false false).1.seen.drop 1) &&
        decide (t.fromS ∉ startL) && decide (¬t.fromS = t.toS) &&
        decide (t.inp ∉ uL))) := by
  rw [List.perm_iff_count]
  intro x
  rw [← countT_eq_count, ← countT_eq_count, sgStart_expandedEdges,
    countT_listFlat_stEdges startL uL transL false false x _
      ((sgStart_nodup count startL uL transL startT false false).sublist
        (List.drop_sublist 1 _)),
    countT_filter]
  refine if_congr ?_ rfl rfl
  rw [passEdge_default_iff]
  simp only [Bool.and_eq_true, decide_eq_true_eq]
  tauto

/-- C1 witness: the exactness permutation evaluated on a concrete
transition set with a self-loop, an unusual input and a start-state
boundary. -/
theorem c1_witness :
    List.Perm
      (expandedEdges (sgStart 1 ["INIT", "NORMAL_OP"] ["PKT_ERROR", "CMD_CLOSE"]
        [⟨"INIT", "OPEN", "CMD_OPEN", some "PKT_OPEN"⟩,
         ⟨"OPEN", "OPEN", "CMD_NOP", none⟩,
         ⟨"OPEN", "CLOSED", "CMD_CLOSE", none⟩,
         ⟨"OPEN", "DONE", "PKT_ACK", none⟩,
         ⟨"DONE", "NORMAL_OP", "INPUT_OK", none⟩,
         ⟨"NORMAL_OP", "X", "CMD_X", none⟩]
        ⟨"INIT", "OPEN", "CMD_OPEN", some "PKT_OPEN"⟩ false false).2)
      ([⟨"INIT", "OPEN", "CMD_OPEN", some "PKT_OPEN"⟩,
        ⟨"OPEN", "OPEN", "CMD_NOP", none⟩,
        ⟨"OPEN", "CLOSED", "CMD_CLOSE", none⟩,
        ⟨"OPEN", "DONE", "PKT_ACK", none⟩,
        ⟨"DONE", "NORMAL_OP", "INPUT_OK", none⟩,
        ⟨"NORMAL_OP", "X", "CMD_X", none⟩].filter (fun t =>
        decide (t.fromS ∈ (sgStart 1 ["INIT", "NORMAL_OP"]
          ["PKT_ERROR", "CMD_CLOSE"]
          [⟨"INIT", "OPEN", "CMD_OPEN", some "PKT_OPEN"⟩,
           ⟨"OPEN", "OPEN", "CMD_NOP", none⟩,
           ⟨"OPEN", "CLOSED", "CMD_CLOSE", none⟩,
           ⟨"OPEN", "DONE", "PKT_ACK", none⟩,
           ⟨"DONE", "NORMAL_OP", "INPUT_OK", none⟩,
           ⟨"NORMAL_OP", "X", "CMD_X", none⟩]
          ⟨"INIT", "OPEN", "CMD_OPEN", some "PKT_OPEN"⟩ false false).1.seen.drop 1) &&
        decide (t.fromS ∉ ["INIT", "NORMAL_OP"]) && decide (¬t.fromS = t.toS) &&
        decide (t.inp ∉ ["PKT_ERROR", "CMD_CLOSE"]))) :=
  c1_expanded_edges_exact 1 ["INIT", "NORMAL_OP"] ["PKT_ERROR", "CMD_CLOSE"]
    [⟨"INIT", "OPEN", "CMD_OPEN", some "PKT_OPEN"⟩,
     ⟨"OPEN", "OPEN", "CMD_NOP", none⟩,
     ⟨"OPEN", "CLOSED", "CMD_CLOSE", none⟩,
     ⟨"OPEN", "DONE", "PKT_ACK", none⟩,
     ⟨"DONE", "NORMAL_OP", "INPUT_OK", none⟩,
     ⟨"NORMAL_OP", "X", "CMD_X", none⟩]
    ⟨"INIT", "OPEN", "CMD_OPEN", some "PKT_OPEN"⟩

/-- C2: a node in the seen-list receives the sink styling in the final
pass if and only if no edge was emitted with that node key (origin
suffix and plain variants distinct) as its source during the cluster's
expansion. -/
theorem c2_sink_iff (count : Nat) (startL uL : List String)
    (transL : List Transition) (startT : Transition) (dn du : Bool)
    (key : String)
    (hkey : key ∈ (sgStart count startL uL transL startT dn du).1.seen) :
    Ev.sinkDecl key count ∈ (sgStart count startL uL transL startT dn du).2 ↔
      key ∉ srcKeys (sgStart count startL uL transL startT dn du).2 := by
  rw [sgStart_sink_iff]
  constructor
  · rintro ⟨-, -, hns⟩ hsrc
    exact hns ((sgStart_nonsink_iff count startL uL transL startT dn du key).mpr
      hsrc)
  · intro h
    exact ⟨rfl, hkey, fun hns =>
      h ((sgStart_nonsink_iff count startL uL transL startT dn du key).mp hns)⟩

/-- C2 witness: in the concrete run, `NORMAL_OP` is in the seen-list and
is styled as a sink exactly because it is no emitted edge's source. -/
theorem c2_witness :
    Ev.sinkDecl "NORMAL_OP" 1 ∈ (sgStart 1 ["INIT", "NORMAL_OP"]
        ["PKT_ERROR", "CMD_CLOSE"]
        [⟨"INIT", "OPEN", "CMD_OPEN", some "PKT_OPEN"⟩,
         ⟨"OPEN", "OPEN", "CMD_NOP", none⟩,
         ⟨"OPEN", "CLOSED", "CMD_CLOSE", none⟩,
         ⟨"OPEN", "DONE", "PKT_ACK", none⟩,
         ⟨"DONE", "NORMAL_OP", "INPUT_OK", none⟩,
         ⟨"NORMAL_OP", "X", "CMD_X", none⟩]
        ⟨"INIT", "OPEN", "CMD_OPEN", some "PKT_OPEN"⟩ false false).2 ↔
      "NORMAL_OP" ∉ srcKeys (sgStart 1 ["INIT", "NORMAL_OP"]
        ["PKT_ERROR", "CMD_CLOSE"]
        [⟨"INIT", "OPEN", "CMD_OPEN", some "PKT_OPEN"⟩,
         ⟨"OPEN", "OPEN", "CMD_NOP", none⟩,
         ⟨"OPEN", "CLOSED", "CMD_CLOSE", none⟩,
         ⟨"OPEN", "DONE", "PKT_ACK", none⟩,
         ⟨"DONE", "NORMAL_OP", "INPUT_OK", none⟩,
         ⟨"NORMAL_OP", "X", "CMD_X", none⟩]
        ⟨"INIT", "OPEN", "CMD_OPEN", some "PKT_OPEN"⟩ false false).2 :=
  c2_sink_iff 1 ["INIT", "NORMAL_OP"] ["PKT_ERROR", "CMD_CLOSE"]
    [⟨"INIT", "OPEN", "CMD_OPEN", some "PKT_OPEN"⟩,
     ⟨"OPEN", "OPEN", "CMD_NOP", none⟩,
     ⟨"OPEN", "CLOSED", "CMD_CLOSE", none⟩,
     ⟨"OPEN", "DONE", "PKT_ACK", none⟩,
     ⟨"DONE", "NORMAL_OP", "INPUT_OK", none⟩,
     ⟨"NORMAL_OP", "X", "CMD_X", none⟩]
    ⟨"INIT", "OPEN", "CMD_OPEN", some "PKT_OPEN"⟩ false false "NORMAL_OP"
    (by decide)

/-- C3: a Start State reached as a destination during a cluster's
expansion ends up in the seen-list with a node declaration under its
key, and no transition leaving it is ever emitted as an expanded edge of
that cluster. -/
theorem c3_boundary (count : Nat) (startL uL : List String)
    (transL : List Transition) (startT : Transition) (dn du : Bool)
    (s : String) (hs : s ∈ startL)
    (hreach : s ∈ destKeys (sgStart count startL uL transL startT dn du).2) :
    s ∈ (sgStart count startL uL transL startT dn du).1.seen ∧
      s ∈ nodeKeys (sgStart count startL uL transL startT dn du).2 ∧
      ∀ t ∈ expandedEdges (sgStart count startL uL transL startT dn du).2,
        ¬t.fromS = s := by
  have h1 := sgStart_dest_mem count startL uL transL startT dn du s hreach
  refine ⟨h1,
    (sgStart_seen_iff_nodeKeys count startL uL transL startT dn du s).mp h1, ?_⟩
  intro t ht heq
  rw [sgStart_expandedEdges] at ht
  rcases mem_listFlat.mp ht with ⟨st, -, hstEd⟩
  rcases mem_stEdges.mp hstEd with ⟨hnotstart, -, hpass⟩
  have hfrom : st = t.fromS := by
    have h2 := (Bool.and_eq_true _ _).mp hpass
    simpa using h2.2
  exact hnotstart (by rw [hfrom, heq]; exact hs)

/-- C3 witness: in the concrete run `NORMAL_OP` is a Start State reached
as a destination; it is seen and declared, and no expanded edge leaves
it although the set has the transition `NORMAL_OP -> X`. -/
theorem c3_witness :
    "NORMAL_OP" ∈ (sgStart 1 ["INIT", "NORMAL_OP"] ["PKT_ERROR", "CMD_CLOSE"]
        [⟨"INIT", "OPEN", "CMD_OPEN", some "PKT_OPEN"⟩,
         ⟨"OPEN", "OPEN", "CMD_NOP", none⟩,
         ⟨"OPEN", "CLOSED", "CMD_CLOSE", none⟩,
         ⟨"OPEN", "DONE", "PKT_ACK", none⟩,
         ⟨"DONE", "NORMAL_OP", "INPUT_OK", none⟩,
         ⟨"NORMAL_OP", "X", "CMD_X", none⟩]
        ⟨"INIT", "OPEN", "CMD_OPEN", some "PKT_OPEN"⟩ false false).1.seen ∧
      "NORMAL_OP" ∈ nodeKeys (sgStart 1 ["INIT", "NORMAL_OP"]
        ["PKT_ERROR", "CMD_CLOSE"]
        [⟨"INIT", "OPEN", "CMD_OPEN", some "PKT_OPEN"⟩,
         ⟨"OPEN", "OPEN", "CMD_NOP", none⟩,
         ⟨"OPEN", "CLOSED", "CMD_CLOSE", none⟩,
         ⟨"OPEN", "DONE", "PKT_ACK", none⟩,
         ⟨"DONE", "NORMAL_OP", "INPUT_OK", none⟩,
         ⟨"NORMAL_OP", "X", "CMD_X", none⟩]
        ⟨"INIT", "OPEN", "CMD_OPEN", some "PKT_OPEN"⟩ false false).2 ∧
      ∀ t ∈ expandedEdges (sgStart 1 ["INIT", "NORMAL_OP"]
        ["PKT_ERROR", "CMD_CLOSE"]
        [⟨"INIT", "OPEN", "CMD_OPEN", some "PKT_OPEN"⟩,
         ⟨"OPEN", "OPEN", "CMD_NOP", none⟩,
         ⟨"OPEN", "CLOSED", "CMD_CLOSE", none⟩,
         ⟨"OPEN", "DONE", "PKT_ACK", none⟩,
         ⟨"DONE", "NORMAL_OP", "INPUT_OK", none⟩,
         ⟨"NORMAL_OP", "X", "CMD_X", none⟩]
        ⟨"INIT", "OPEN", "CMD_OPEN", some "PKT_OPEN"⟩ false false).2,
        ¬t.fromS = "NORMAL_OP" :=
  c3_boundary 1 ["INIT", "NORMAL_OP"] ["PKT_ERROR", "CMD_CLOSE"]
    [⟨"INIT", "OPEN", "CMD_OPEN", some "PKT_OPEN"⟩,
     ⟨"OPEN", "OPEN", "CMD_NOP", none⟩,
     ⟨"OPEN", "CLOSED", "CMD_CLOSE", none⟩,
     ⟨"OPEN", "DONE", "PKT_ACK", none⟩,
     ⟨"DONE", "NORMAL_OP", "INPUT_OK", none⟩,
     ⟨"NORMAL_OP", "X", "CMD_X", none⟩]
    ⟨"INIT", "OPEN", "CMD_OPEN", some "PKT_OPEN"⟩ false false "NORMAL_OP"
    (by decide) (by decide)

/-- C4: the Cluster Builder emits the initial edge exactly once, for
every starting transition (a self-loop included) and any flag setting:
the list of initial-edge transitions of the emitted events is exactly
the singleton of the starting transition. -/
theorem c4_initial_edge_once (count : Nat) (startL uL : List String)
    (transL : List Transition) (startT : Transition) (dn du : Bool) :
    initialEdges (sgStart count startL uL transL startT dn du).2 = [startT] :=
  sgStart_initialEdges count startL uL transL startT dn du

/-- C4 witness: a self-loop starting transition is still emitted exactly
once as the initial edge. -/
theorem c4_witness :
    initialEdges (sgStart 2 ["INIT"] ["PKT_ERROR"]
      [⟨"INIT", "INIT", "CMD_NOP", none⟩]
      ⟨"INIT", "INIT", "CMD_NOP", none⟩ false false).2 =
      [⟨"INIT", "INIT", "CMD_NOP", none⟩] :=
  c4_initial_edge_once 2 ["INIT"] ["PKT_ERROR"]
    [⟨"INIT", "INIT", "CMD_NOP", none⟩]
    ⟨"INIT", "INIT", "CMD_NOP", none⟩ false false

/-- C5 (amended): every node declaration of a cluster is either the
origin node — key `from + "_O"`, label the plain (possibly newline-joined)
from-state name, identifier `srcIdent`, i.e. `name_count_O` unless the
name contains the backslash-n join marker, in which case just
`_count_O` — or a destination node with key equal to its label and
identifier `label_count`. -/
theorem c5_node_identity (count : Nat) (startL uL : List String)
    (transL : List Transition) (startT : Transition) (dn du : Bool)
    (k i l : String)
    (h : Ev.nodeDecl k i l ∈ (sgStart count startL uL transL startT dn du).2) :
    (k = startT.fromS ++ "_O" ∧ l = startT.fromS ∧
      i = srcIdent startT.fromS count "_O") ∨
    (k = l ∧ i = l ++ "_" ++ toString count) := by
  rcases sgStart_node_shape count startL uL transL startT dn du h with
    ⟨hk, hi, hl⟩ | ⟨hk, hi⟩
  · exact Or.inl ⟨hk, hl, hi⟩
  · exact Or.inr ⟨hk, hi⟩

/-- C5 witness: the destination node of the concrete run is declared
with identifier `OPEN_1` and label `OPEN`; the origin is declared with
identifier `INIT_1_O`. -/
theorem c5_witness :
    ("OPEN" = ("INIT" : String) ++ "_O" ∧ ("OPEN" : String) = "INIT" ∧
      ("OPEN_1" : String) = srcIdent "INIT" 1 "_O") ∨
    (("OPEN" : String) = "OPEN" ∧ ("OPEN_1" : String) = "OPEN" ++ "_" ++
      toString (1 : Nat)) :=
  c5_node_identity 1 ["INIT", "NORMAL_OP"] ["PKT_ERROR", "CMD_CLOSE"]
    [⟨"INIT", "OPEN", "CMD_OPEN", some "PKT_OPEN"⟩,
     ⟨"OPEN", "OPEN", "CMD_NOP", none⟩,
     ⟨"OPEN", "CLOSED", "CMD_CLOSE", none⟩,
     ⟨"OPEN", "DONE", "PKT_ACK", none⟩,
     ⟨"DONE", "NORMAL_OP", "INPUT_OK", none⟩,
     ⟨"NORMAL_OP", "X", "CMD_X", none⟩]
    ⟨"INIT", "OPEN", "CMD_OPEN", some "PKT_OPEN"⟩ false false
    "OPEN" "OPEN_1" "OPEN" (by decide)

/-- C5 counterexample: in an error-path cluster whose combined origin
joins the two states `A` and `B`, the origin node is declared with
identifier `_1_O`, not with the concatenation of its state name
(`A`, backslash, `n`, `B`), cluster counter and origin suffix as the
claim states. -/
theorem c5_counterexample :
    Ev.nodeDecl ("A\\nB" ++ "_O") "_1_O" "A\\nB" ∈
      (unusualClusterFor ["INIT"] ["PKT_ERROR"]
        [⟨"A", "CLOSED", "PKT_ERROR", none⟩,
         ⟨"B", "CLOSED", "PKT_ERROR", none⟩] "PKT_ERROR" 0 0).2 ∧
    ("_1_O" : String) ≠ "A\\nB" ++ "_1" ++ "_O" := by
  constructor
  · decide
  · decide

/-- C9: the worklist loop terminates — running `Subgraph.start` with any
fuel beyond the default changes nothing (the loop exits through its
guard), the seen-list stays duplicate-free, and its length is bounded by
the number of distinct state names of the transition set plus the one
origin entry. -/
theorem c9_termination (count : Nat) (startL uL : List String)
    (transL : List Transition) (startT : Transition) (dn du : Bool)
    (htoS : startT.toS ∈ listFlat (fun t => [t.fromS, t.toS]) transL) :
    (∀ k, Subgraph.start count startL uL transL startT dn du
        (startFuel startT transL + k) =
      sgStart count startL uL transL startT dn du) ∧
    (sgStart count startL uL transL startT dn du).1.seen.Nodup ∧
    (sgStart count startL uL transL startT dn du).1.seen.length ≤
      1 + (listFlat (fun t => [t.fromS, t.toS]) transL).dedup.length := by
  refine ⟨fun k => sgStart_stability count startL uL transL startT dn du k,
    sgStart_nodup count startL uL transL startT dn du, ?_⟩
  have hnd := sgStart_nodup count startL uL transL startT dn du
  have hsub := sgStart_seen_sub count startL uL transL startT dn du
  have hsub2 : ∀ x ∈ (sgStart count startL uL transL startT dn du).1.seen,
      x ∈ (startT.fromS ++ "_O") ::
        listFlat (fun t => [t.fromS, t.toS]) transL := by
    intro x hx
    have hmem := hsub x hx
    rw [allowedStates] at hmem
    rcases List.mem_cons.mp hmem with rfl | hmem2
    · exact List.mem_cons_self _ _
    · rcases List.mem_cons.mp hmem2 with rfl | hmem3
      · exact List.mem_cons_of_mem _ htoS
      · exact List.mem_cons_of_mem _ hmem3
  calc (sgStart count startL uL transL startT dn du).1.seen.length
      ≤ ((startT.fromS ++ "_O") ::
          listFlat (fun t => [t.fromS, t.toS]) transL).dedup.length :=
        nodup_length_le_dedup hnd hsub2
    _ ≤ 1 + (listFlat (fun t => [t.fromS, t.toS]) transL).dedup.length :=
        dedup_cons_le _ _

/-- C9 witness: the concrete run is unchanged by 5 extra units of fuel,
has a duplicate-free seen-list, and respects the length bound. -/
theorem c9_witness :
    Subgraph.start 1 ["INIT", "NORMAL_OP"] ["PKT_ERROR", "CMD_CLOSE"]
        [⟨"INIT", "OPEN", "CMD_OPEN", some "PKT_OPEN"⟩,
         ⟨"OPEN", "OPEN", "CMD_NOP", none⟩,
         ⟨"OPEN", "CLOSED", "CMD_CLOSE", none⟩,
         ⟨"OPEN", "DONE", "PKT_ACK", none⟩,
         ⟨"DONE", "NORMAL_OP", "INPUT_OK", none⟩,
         ⟨"NORMAL_OP", "X", "CMD_X", none⟩]
        ⟨"INIT", "OPEN", "CMD_OPEN", some "PKT_OPEN"⟩ false false
        (startFuel ⟨"INIT", "OPEN", "CMD_OPEN", some "PKT_OPEN"⟩
          [⟨"INIT", "OPEN", "CMD_OPEN", some "PKT_OPEN"⟩,
           ⟨"OPEN", "OPEN", "CMD_NOP", none⟩,
           ⟨"OPEN", "CLOSED", "CMD_CLOSE", none⟩,
           ⟨"OPEN", "DONE", "PKT_ACK", none⟩,
           ⟨"DONE", "NORMAL_OP", "INPUT_OK", none⟩,
           ⟨"NORMAL_OP", "X", "CMD_X", none⟩] + 5) =
      sgStart 1 ["INIT", "NORMAL_OP"] ["PKT_ERROR", "CMD_CLOSE"]
        [⟨"INIT", "OPEN", "CMD_OPEN", some "PKT_OPEN"⟩,
         ⟨"OPEN", "OPEN", "CMD_NOP", none⟩,
         ⟨"OPEN", "CLOSED", "CMD_CLOSE", none⟩,
         ⟨"OPEN", "DONE", "PKT_ACK", none⟩,
         ⟨"DONE", "NORMAL_OP", "INPUT_OK", none⟩,
         ⟨"NORMAL_OP", "X", "CMD_X", none⟩]
        ⟨"INIT", "OPEN", "CMD_OPEN", some "PKT_OPEN"⟩ false false ∧
    (sgStart 1 ["INIT", "NORMAL_OP"] ["PKT_ERROR", "CMD_CLOSE"]
        [⟨"INIT", "OPEN", "CMD_OPEN", some "PKT_OPEN"⟩,
         ⟨"OPEN", "OPEN", "CMD_NOP", none⟩,
         ⟨"OPEN", "CLOSED", "CMD_CLOSE", none⟩,
         ⟨"OPEN", "DONE", "PKT_ACK", none⟩,
         ⟨"DONE", "NORMAL_OP", "INPUT_OK", none⟩,
         ⟨"NORMAL_OP", "X", "CMD_X", none⟩]
        ⟨"INIT", "OPEN", "CMD_OPEN", some "PKT_OPEN"⟩ false false).1.seen.length ≤
      1 + (listFlat (fun t => [t.fromS, t.toS])
        [(⟨"INIT", "OPEN", "CMD_OPEN", some "PKT_OPEN"⟩ : Transition),
         ⟨"OPEN", "OPEN", "CMD_NOP", none⟩,
         ⟨"OPEN", "CLOSED", "CMD_CLOSE", none⟩,
         ⟨"OPEN", "DONE", "PKT_ACK", none⟩,
         ⟨"DONE", "NORMAL_OP", "INPUT_OK", none⟩,
         ⟨"NORMAL_OP", "X", "CMD_X", none⟩]).dedup.length := by
  have h := c9_termination 1 ["INIT", "NORMAL_OP"] ["PKT_ERROR", "CMD_CLOSE"]
    [⟨"INIT", "OPEN", "CMD_OPEN", some "PKT_OPEN"⟩,
     ⟨"OPEN", "OPEN", "CMD_NOP", none⟩,
     ⟨"OPEN", "CLOSED", "CMD_CLOSE", none⟩,
     ⟨"OPEN", "DONE", "PKT_ACK", none⟩,
     ⟨"DONE", "NORMAL_OP", "INPUT_OK", none⟩,
     ⟨"NORMAL_OP", "X", "CMD_X", none⟩]
    ⟨"INIT", "OPEN", "CMD_OPEN", some "PKT_OPEN"⟩ false false (by decide)
  exact ⟨h.1 5, h.2.2⟩

/-- C10: the origin node is the first seen-list entry, carries the
origin suffix, is marked non-sink by the emission of the initial edge,
and the final sink-styling pass never emits a sink declaration for it. -/
theorem c10_origin_never_sink (count : Nat) (startL uL : List String)
    (transL : List Transition) (startT : Transition) (dn du : Bool) :
    (sgStart count startL uL transL startT dn du).1.seen.head? =
      some (startT.fromS ++ "_O") ∧
    (startT.fromS ++ "_O") ∈
      (sgStart count startL uL transL startT dn du).1.nonsink ∧
    Ev.sinkDecl (startT.fromS ++ "_O") count ∉
      (sgStart count startL uL transL startT dn du).2 := by
  refine ⟨sgStart_head count startL uL transL startT dn du,
    sgStart_origin_nonsink count startL uL transL startT dn du, fun h => ?_⟩
  rcases (sgStart_sink_iff count startL uL transL startT dn du
    (startT.fromS ++ "_O") count).mp h with ⟨-, -, hns⟩
  exact hns (sgStart_origin_nonsink count startL uL transL startT dn du)

/-- C10 witness: the concrete run declares no sink styling for its
origin node `INIT_O`, which is head of the seen-list and non-sink. -/
theorem c10_witness :
    (sgStart 1 ["INIT", "NORMAL_OP"] ["PKT_ERROR", "CMD_CLOSE"]
        [⟨"INIT", "OPEN", "CMD_OPEN", some "PKT_OPEN"⟩,
         ⟨"OPEN", "OPEN", "CMD_NOP", none⟩,
         ⟨"OPEN", "CLOSED", "CMD_CLOSE", none⟩,
         ⟨"OPEN", "DONE", "PKT_ACK", none⟩,
         ⟨"DONE", "NORMAL_OP", "INPUT_OK", none⟩,
         ⟨"NORMAL_OP", "X", "CMD_X", none⟩]
        ⟨"INIT", "OPEN", "CMD_OPEN", some "PKT_OPEN"⟩ false false).1.seen.head? =
      some (("INIT" : String) ++ "_O") ∧
    (("INIT" : String) ++ "_O") ∈ (sgStart 1 ["INIT", "NORMAL_OP"]
        ["PKT_ERROR", "CMD_CLOSE"]
        [⟨"INIT", "OPEN", "CMD_OPEN", some "PKT_OPEN"⟩,
         ⟨"OPEN", "OPEN", "CMD_NOP", none⟩,
         ⟨"OPEN", "CLOSED", "CMD_CLOSE", none⟩,
         ⟨"OPEN", "DONE", "PKT_ACK", none⟩,
         ⟨"DONE", "NORMAL_OP", "INPUT_OK", none⟩,
         ⟨"NORMAL_OP", "X", "CMD_X", none⟩]
        ⟨"INIT", "OPEN", "CMD_OPEN", some "PKT_OPEN"⟩ false false).1.nonsink ∧
    Ev.sinkDecl (("INIT" : String) ++ "_O") 1 ∉ (sgStart 1
        ["INIT", "NORMAL_OP"] ["PKT_ERROR", "CMD_CLOSE"]
        [⟨"INIT", "OPEN", "CMD_OPEN", some "PKT_OPEN"⟩,
         ⟨"OPEN", "OPEN", "CMD_NOP", none⟩,
         ⟨"OPEN", "CLOSED", "CMD_CLOSE", none⟩,
         ⟨"OPEN", "DONE", "PKT_ACK", none⟩,
         ⟨"DONE", "NORMAL_OP", "INPUT_OK", none⟩,
         ⟨"NORMAL_OP", "X", "CMD_X", none⟩]
        ⟨"INIT", "OPEN", "CMD_OPEN", some "PKT_OPEN"⟩ false false).2 :=
  c10_origin_never_sink 1 ["INIT", "NORMAL_OP"] ["PKT_ERROR", "CMD_CLOSE"]
    [⟨"INIT", "OPEN", "CMD_OPEN", some "PKT_OPEN"⟩,
     ⟨"OPEN", "OPEN", "CMD_NOP", none⟩,
     ⟨"OPEN", "CLOSED", "CMD_CLOSE", none⟩,
     ⟨"OPEN", "DONE", "PKT_ACK", none⟩,
     ⟨"DONE", "NORMAL_OP", "INPUT_OK", none⟩,
     ⟨"NORMAL_OP", "X", "CMD_X", none⟩]
    ⟨"INIT", "OPEN", "CMD_OPEN", some "PKT_OPEN"⟩ false false

/-! ### The unusual-input classifier and error-path clusters -/

theorem lookupG_addGroup_self (res : List ((String × Option String) × List String))
    (k : String × Option String) (v : String) :
    lookupG (addGroup res k v) k = lookupG res k ++ [v] := by
  induction res with
  | nil => simp [addGroup, lookupG]
  | cons e rest ih =>
    obtain ⟨k0, vs⟩ := e
    by_cases h : k0 = k
    · subst h
      simp [addGroup, lookupG]
    · simp [addGroup, lookupG, h, ih]

theorem lookupG_addGroup_other (res : List ((String × Option String) × List String))
    (k k2 : String × Option String) (v : String) (h : k2 ≠ k) :
    lookupG (addGroup res k v) k2 = lookupG res k2 := by
  induction res with
  | nil =>
    simp only [addGroup, lookupG]
    rw [if_neg fun hh => h hh.symm]
  | cons e rest ih =>
    obtain ⟨k0, vs⟩ := e
    by_cases h0 : k0 = k
    · subst h0
      simp only [addGroup, lookupG, if_pos rfl]
      rw [if_neg fun hh => h hh.symm, if_neg fun hh => h hh.symm]
    · by_cases h2 : k0 = k2
      · subst h2
        simp [addGroup, lookupG, h0]
      · simp [addGroup, lookupG, h0, h2, ih]

theorem classifyAux_nil (u : String)
    (res : List ((String × Option String) × List String)) :
    classifyAux u res [] = res := rfl

theorem classifyAux_cons (u : String)
    (res : List ((String × Option String) × List String)) (t : Transition)
    (ts : List Transition) : classifyAux u res (t :: ts) =
      classifyAux u
        (if t.inp = u then addGroup res (t.toS, t.outp) t.fromS else res) ts :=
  rfl

theorem classifyAux_lookup (u : String) : ∀ (ts : List Transition)
    (res : List ((String × Option String) × List String))
    (k : String × Option String),
    lookupG (classifyAux u res ts) k = lookupG res k ++
      ((ts.filter (fun t => decide (t.inp = u) && decide (t.toS = k.1) &&
        decide (t.outp = k.2))).map Transition.fromS) := by
  intro ts
  induction ts with
  | nil => simp [classifyAux_nil]
  | cons t ts ih =>
    intro res k
    rw [classifyAux_cons, List.filter_cons]
    by_cases hinp : t.inp = u
    · rw [if_pos hinp, ih]
      by_cases hk : (t.toS, t.outp) = k
      · have hk1 : t.toS = k.1 := by rw [← hk]
        have hk2 : t.outp = k.2 := by rw [← hk]
        rw [if_pos (by simp [hinp, hk1, hk2]), hk, lookupG_addGroup_self]
        simp
      · rw [if_neg (by
          simp only [Bool.and_eq_true, decide_eq_true_eq]
          rintro ⟨⟨-, h1⟩, h2⟩
          exact hk (Prod.ext h1 h2)),
          lookupG_addGroup_other res _ k _ (fun hh => hk hh.symm)]
    · rw [if_neg hinp, ih, if_neg (by simp [hinp])]

theorem classify_lookup (u : String) (transL : List Transition)
    (k : String × Option String) :
    lookupG (classify u transL) k =
      (transL.filter (fun t => decide (t.inp = u) && decide (t.toS = k.1) &&
        decide (t.outp = k.2))).map Transition.fromS := by
  rw [classify, classifyAux_lookup]
  rfl

theorem classifyAux_no_match (u : String) : ∀ (ts : List Transition)
    (res : List ((String × Option String) × List String)),
    (∀ t ∈ ts, t.inp ≠ u) → classifyAux u res ts = res := by
  intro ts
  induction ts with
  | nil => intro res _; rfl
  | cons t ts ih =>
    intro res h
    rw [classifyAux_cons, if_neg (h t (by simp))]
    exact ih res fun t2 ht2 => h t2 (by simp [ht2])

theorem classify_nil_of_no_match (u : String) (transL : List Transition)
    (h : ∀ t ∈ transL, t.inp ≠ u) : classify u transL = [] :=
  classifyAux_no_match u transL [] h

theorem runGroups_nil (startL uL : List String) (transL : List Transition)
    (u : String) (res : List ((String × Option String) × List String))
    (sc : Nat) : runGroups startL uL transL u res sc [] = (sc, []) := rfl

theorem runGroups_cons (startL uL : List String) (transL : List Transition)
    (u : String) (res : List ((String × Option String) × List String))
    (sc : Nat) (k : String × Option String)
    (ks : List (String × Option String)) :
    runGroups startL uL transL u res sc (k :: ks) =
      ((runGroups startL uL transL u res (sc + 1) ks).1,
       (sgStart (sc + 1) startL uL transL
         (buildStartTrans u k (lookupG res k)) false false).2 ++
       (runGroups startL uL transL u res (sc + 1) ks).2) := rfl

theorem runGroups_mem (startL uL : List String) (transL : List Transition)
    (u : String) (res : List ((String × Option String) × List String)) :
    ∀ (ks : List (String × Option String)) (sc : Nat)
    (k : String × Option String), k ∈ ks →
    ∃ c2, Ev.nodeDecl
      (String.intercalate "\\n" (sortBy strLe (lookupG res k)) ++ "_O")
      (srcIdent (String.intercalate "\\n" (sortBy strLe (lookupG res k))) c2 "_O")
      (String.intercalate "\\n" (sortBy strLe (lookupG res k))) ∈
      (runGroups startL uL transL u res sc ks).2 := by
  intro ks
  induction ks with
  | nil => intro sc k hk; simp at hk
  | cons k0 ks ih =>
    intro sc k hk
    rw [runGroups_cons]
    rcases List.mem_cons.mp hk with rfl | hk2
    · refine ⟨sc + 1, List.mem_append_left _ ?_⟩
      exact sgStart_origin_node_mem (sc + 1) startL uL transL
        (buildStartTrans u k (lookupG res k)) false false
    · obtain ⟨c2, hmem⟩ := ih (sc + 1) k hk2
      exact ⟨c2, List.mem_append_right _ hmem⟩

theorem unusualClusterFor_eq_of_empty (startL uL : List String)
    (transL : List Transition) (u : String) (cc sc : Nat)
    (h : classify u transL = []) :
    unusualClusterFor startL uL transL u cc sc = ((cc, sc), []) := by
  rw [unusualClusterFor, if_pos h]

theorem unusualClusterFor_eq_of_nonempty (startL uL : List String)
    (transL : List Transition) (u : String) (cc sc : Nat)
    (h : ¬classify u transL = []) :
    unusualClusterFor startL uL transL u cc sc =
      ((cc + 1, (runGroups startL uL transL u (classify u transL) sc
          (sortBy keyLe ((classify u transL).map Prod.fst))).1),
       Ev.openCluster (cc + 1) ("error path " ++ u) ::
         (runGroups startL uL transL u (classify u transL) sc
           (sortBy keyLe ((classify u transL).map Prod.fst))).2 ++
         [Ev.closeCluster]) := by
  rw [unusualClusterFor, if_neg h]

/-- C6: the classifier maps each (resulting state, output) pair to the
from-states of the transitions on the unusual input reaching that pair,
each convergence group is rendered with one combined origin node whose
label is the backslash-n-joined sorted list of those from-states, and an
unusual input used by no transition emits no cluster at all. -/
theorem c6_unusual_classifier (startL uL : List String)
    (transL : List Transition) (u : String) (cc sc : Nat) :
    (∀ s p, lookupG (classify u transL) (s, p) =
      (transL.filter (fun t => decide (t.inp = u) && decide (t.toS = s) &&
        decide (t.outp = p))).map Transition.fromS) ∧
    (∀ k ∈ (classify u transL).map Prod.fst, ∃ c2, Ev.nodeDecl
      (String.intercalate "\\n" (sortBy strLe (lookupG (classify u transL) k))
        ++ "_O")
      (srcIdent (String.intercalate "\\n"
        (sortBy strLe (lookupG (classify u transL) k))) c2 "_O")
      (String.intercalate "\\n" (sortBy strLe (lookupG (classify u transL) k)))
      ∈ (unusualClusterFor startL uL transL u cc sc).2) ∧
    ((∀ t ∈ transL, t.inp ≠ u) →
      (unusualClusterFor startL uL transL u cc sc).2 = []) := by
  refine ⟨fun s p => classify_lookup u transL (s, p), ?_, ?_⟩
  · intro k hk
    have hne : ¬classify u transL = [] := by
      intro hh
      rw [hh] at hk
      simp at hk
    rw [unusualClusterFor_eq_of_nonempty startL uL transL u cc sc hne]
    obtain ⟨c2, hmem⟩ := runGroups_mem startL uL transL u (classify u transL)
      (sortBy keyLe ((classify u transL).map Prod.fst)) sc k
      (mem_sortBy.mpr hk)
    exact ⟨c2, List.mem_cons_of_mem _ (List.mem_append_left _ hmem)⟩
  · intro h
    rw [unusualClusterFor_eq_of_empty startL uL transL u cc sc
      (classify_nil_of_no_match u transL h)]

/-- C6 witness: with transitions `X -> CLOSED` and `Y -> CLOSED` on
`PKT_ERROR`, the group of `(CLOSED, none)` is `[X, Y]` and its combined
origin node is rendered; an input used by no transition emits nothing. -/
theorem c6_witness :
    lookupG (classify "PKT_ERROR"
        [⟨"X", "CLOSED", "PKT_ERROR", none⟩,
         ⟨"Y", "CLOSED", "PKT_ERROR", none⟩]) ("CLOSED", none) =
      ([⟨"X", "CLOSED", "PKT_ERROR", none⟩,
        ⟨"Y", "CLOSED", "PKT_ERROR", none⟩].filter
        (fun t => decide (t.inp = "PKT_ERROR") && decide (t.toS = "CLOSED") &&
          decide (t.outp = none))).map Transition.fromS ∧
    (∃ c2, Ev.nodeDecl
      (String.intercalate "\\n" (sortBy strLe (lookupG (classify "PKT_ERROR"
        [⟨"X", "CLOSED", "PKT_ERROR", none⟩,
         ⟨"Y", "CLOSED", "PKT_ERROR", none⟩]) ("CLOSED", none))) ++ "_O")
      (srcIdent (String.intercalate "\\n" (sortBy strLe (lookupG
        (classify "PKT_ERROR"
          [⟨"X", "CLOSED", "PKT_ERROR", none⟩,
           ⟨"Y", "CLOSED", "PKT_ERROR", none⟩]) ("CLOSED", none)))) c2 "_O")
      (String.intercalate "\\n" (sortBy strLe (lookupG (classify "PKT_ERROR"
        [⟨"X", "CLOSED", "PKT_ERROR", none⟩,
         ⟨"Y", "CLOSED", "PKT_ERROR", none⟩]) ("CLOSED", none)))) ∈
      (unusualClusterFor ["INIT"] ["PKT_ERROR"]
        [⟨"X", "CLOSED", "PKT_ERROR", none⟩,
         ⟨"Y", "CLOSED", "PKT_ERROR", none⟩] "PKT_ERROR" 0 0).2) ∧
    (unusualClusterFor ["INIT"] ["PKT_ERROR"]
      [⟨"X", "CLOSED", "PKT_ERROR", none⟩,
       ⟨"Y", "CLOSED", "PKT_ERROR", none⟩] "CMD_FOO" 3 5).2 = [] := by
  refine ⟨(c6_unusual_classifier ["INIT"] ["PKT_ERROR"]
      [⟨"X", "CLOSED", "PKT_ERROR", none⟩,
       ⟨"Y", "CLOSED", "PKT_ERROR", none⟩] "PKT_ERROR" 0 0).1 "CLOSED" none,
    (c6_unusual_classifier ["INIT"] ["PKT_ERROR"]
      [⟨"X", "CLOSED", "PKT_ERROR", none⟩,
       ⟨"Y", "CLOSED", "PKT_ERROR", none⟩] "PKT_ERROR" 0 0).2.1
      ("CLOSED", none) (by decide),
    (c6_unusual_classifier ["INIT"] ["PKT_ERROR"]
      [⟨"X", "CLOSED", "PKT_ERROR", none⟩,
       ⟨"Y", "CLOSED", "PKT_ERROR", none⟩] "CMD_FOO" 3 5).2.2 (by decide)⟩

/-! ### Parser lemmas -/

theorem mk_ne_empty {g : List Char} (h : g ≠ []) : String.mk g ≠ "" := by
  intro h2
  exact h (congrArg String.data h2)

theorem not_isEmpty_ne_nil {α : Type} {g : List α} (h : ¬g.isEmpty = true) :
    g ≠ [] := by
  intro h2
  exact h (by rw [h2]; rfl)

theorem reStateMatch_sound {l : List Char} {s : String}
    (h : reStateMatch l = some s) : s ≠ "" := by
  rw [reStateMatch] at h
  by_cases h1 : (l.takeWhile isUpperCh).isEmpty
  · rw [if_pos h1] at h
    exact absurd h (by simp)
  · rw [if_neg h1] at h
    by_cases h2 : l.dropWhile isUpperCh = [':']
    · rw [if_pos h2] at h
      have hs : String.mk (l.takeWhile isUpperCh) = s := by
        exact Option.some.inj h
      rw [← hs]
      exact mk_ne_empty (not_isEmpty_ne_nil h1)
    · rw [if_neg h2] at h
      exact absurd h (by simp)

theorem paren_mem {l r4 : List Char} {c3 : Char} {r8 : List Char}
    (hS1 : ((l.dropWhile isSpaceCh).dropWhile isUpperCh).dropWhile isSpaceCh =
      '-' :: '>' :: r4)
    (hS2 : ((r4.dropWhile isSpaceCh).dropWhile isUpperCh).dropWhile isSpaceCh =
      c3 :: r8) : c3 ∈ l := by
  have m1 : c3 ∈ ((r4.dropWhile isSpaceCh).dropWhile isUpperCh).dropWhile
      isSpaceCh := by
    rw [hS2]
    simp
  have m2 := (List.dropWhile_sublist _).mem m1
  have m3 := (List.dropWhile_sublist _).mem m2
  have m4 := (List.dropWhile_sublist _).mem m3
  have m5 : c3 ∈ ((l.dropWhile isSpaceCh).dropWhile isUpperCh).dropWhile
      isSpaceCh := by
    rw [hS1]
    simp [m4]
  have m6 := (List.dropWhile_sublist _).mem m5
  have m7 := (List.dropWhile_sublist _).mem m6
  exact (List.dropWhile_sublist _).mem m7

theorem paren_not_mem {l r4 : List Char}
    (hS1 : ((l.dropWhile isSpaceCh).dropWhile isUpperCh).dropWhile isSpaceCh =
      '-' :: '>' :: r4)
    (hS2 : ((r4.dropWhile isSpaceCh).dropWhile isUpperCh).dropWhile isSpaceCh =
      []) : '(' ∉ l := by
  intro hmem
  rw [← List.takeWhile_append_dropWhile isSpaceCh l] at hmem
  rcases List.mem_append.mp hmem with hmem | hmem
  · exact absurd (List.mem_takeWhile_imp hmem) (by decide)
  rw [← List.takeWhile_append_dropWhile isUpperCh (l.dropWhile isSpaceCh)]
    at hmem
  rcases List.mem_append.mp hmem with hmem | hmem
  · exact absurd (List.mem_takeWhile_imp hmem) (by decide)
  rw [← List.takeWhile_append_dropWhile isSpaceCh
    ((l.dropWhile isSpaceCh).dropWhile isUpperCh), hS1] at hmem
  rcases List.mem_append.mp hmem with hmem | hmem
  · exact absurd (List.mem_takeWhile_imp hmem) (by decide)
  rcases List.mem_cons.mp hmem with hc | hmem
  · exact absurd hc (by decide)
  rcases List.mem_cons.mp hmem with hc | hmem
  · exact absurd hc (by decide)
  rw [← List.takeWhile_append_dropWhile isSpaceCh r4] at hmem
  rcases List.mem_append.mp hmem with hmem | hmem
  · exact absurd (List.mem_takeWhile_imp hmem) (by decide)
  rw [← List.takeWhile_append_dropWhile isUpperCh (r4.dropWhile isSpaceCh)]
    at hmem
  rcases List.mem_append.mp hmem with hmem | hmem
  · exact absurd (List.mem_takeWhile_imp hmem) (by decide)
  rw [← List.takeWhile_append_dropWhile isSpaceCh
    ((r4.dropWhile isSpaceCh).dropWhile isUpperCh), hS2] at hmem
  rcases List.mem_append.mp hmem with hmem | hmem
  · exact absurd (List.mem_takeWhile_imp hmem) (by decide)
  · exact absurd hmem (List.not_mem_nil _)

theorem reTransMatch_sound {l : List Char} {i s : String} {o : Option String}
    (h : reTransMatch l = some (i, s, o)) :
    i ≠ "" ∧ s ≠ "" ∧ (∀ x, o = some x → x ≠ "") ∧
      (o.isSome = true ↔ '(' ∈ l) := by
  rw [reTransMatch] at h
  by_cases h1 : (l.takeWhile isSpaceCh).isEmpty
  · rw [if_pos h1] at h
    exact absurd h (by simp)
  rw [if_neg h1] at h
  by_cases h2 : ((l.dropWhile isSpaceCh).takeWhile isUpperCh).isEmpty
  · rw [if_pos h2] at h
    exact absurd h (by simp)
  rw [if_neg h2] at h
  rcases hS1 : ((l.dropWhile isSpaceCh).dropWhile isUpperCh).dropWhile isSpaceCh
    with - | ⟨c1, rest1⟩
  · rw [hS1] at h
    simp at h
  rcases rest1 with - | ⟨c2, r4⟩
  · rw [hS1] at h
    simp at h
  rw [hS1] at h
  simp only [] at h
  by_cases h3 : c1 = '-' ∧ c2 = '>'
  · rw [if_pos h3] at h
    obtain ⟨rfl, rfl⟩ := h3
    by_cases h4 : ((r4.dropWhile isSpaceCh).takeWhile isUpperCh).isEmpty
    · rw [if_pos h4] at h
      exact absurd h (by simp)
    rw [if_neg h4] at h
    rcases hS2 : ((r4.dropWhile isSpaceCh).dropWhile isUpperCh).dropWhile
        isSpaceCh with - | ⟨c3, r8⟩
    · rw [hS2] at h
      simp only [Option.some.injEq, Prod.mk.injEq] at h
      obtain ⟨rfl, rfl, rfl⟩ := h
      refine ⟨mk_ne_empty (not_isEmpty_ne_nil h2),
        mk_ne_empty (not_isEmpty_ne_nil h4), by simp, ?_⟩
      exact iff_of_false (by simp) (paren_not_mem hS1 hS2)
    · rw [hS2] at h
      simp only [] at h
      by_cases h5 : c3 = '('
      · rw [if_pos h5] at h
        by_cases h6 : (((r4.dropWhile isSpaceCh).dropWhile
            isUpperCh).takeWhile isSpaceCh).isEmpty
        · rw [if_pos h6] at h
          exact absurd h (by simp)
        rw [if_neg h6] at h
        by_cases h7 : (r8.takeWhile isUpperCh).isEmpty
        · rw [if_pos h7] at h
          exact absurd h (by simp)
        rw [if_neg h7] at h
        rcases hS3 : r8.dropWhile isUpperCh with - | ⟨c4, r10⟩
        · rw [hS3] at h
          exact absurd h (by simp)
        rw [hS3] at h
        simp only [] at h
        by_cases h8 : c4 = ')'
        · rw [if_pos h8] at h
          by_cases h9 : (r10.dropWhile isSpaceCh).isEmpty
          · rw [if_pos h9] at h
            simp only [Option.some.injEq, Prod.mk.injEq] at h
            obtain ⟨rfl, rfl, rfl⟩ := h
            refine ⟨mk_ne_empty (not_isEmpty_ne_nil h2),
              mk_ne_empty (not_isEmpty_ne_nil h4), ?_, ?_⟩
            · intro x hx
              rw [← Option.some.inj hx]
              exact mk_ne_empty (not_isEmpty_ne_nil h7)
            · subst h5
              exact iff_of_true rfl (paren_mem hS1 hS2)
          · rw [if_neg h9] at h
            exact absurd h (by simp)
        · rw [if_neg h8] at h
          exact absurd h (by simp)
      · rw [if_neg h5] at h
        exact absurd h (by simp)
  · rw [if_neg h3] at h
    exact absurd h (by simp)

theorem parseLines_nil (b : Option String) : parseLines b [] = ([], []) := rfl

theorem parseLines_cons (b : Option String) (l : String) (rest : List String) :
    parseLines b (l :: rest) =
      match reStateMatch l.data with
      | some s => parseLines (some s) rest
      | none =>
        match reTransMatch l.data with
        | some (inp, newSt, outp) =>
          ((⟨b, newSt, inp, outp⟩ : PTrans) ::
            (parseLines b rest).1, (parseLines b rest).2)
        | none => ((parseLines b rest).1, l :: (parseLines b rest).2) := rfl

/-! ### Claim theorems: the parser -/

/-- C7 (amended): every line matching neither the state-declaration
pattern nor the transition pattern — a blank line included — is reported
with exactly one diagnostic, appends no transition, and parsing
continues unchanged on the remaining lines. -/
theorem c7_malformed_line (b : Option String) (l : String)
    (rest : List String) (h1 : reStateMatch l.data = none)
    (h2 : reTransMatch l.data = none) :
    parseLines b (l :: rest) =
      ((parseLines b rest).1, l :: (parseLines b rest).2) := by
  simp only [parseLines_cons, h1, h2]

/-- C7 counterexample: contrary to the claim, a blank line is reported
as a parse error — the one-blank-line input yields one reported line and
no transition. -/
theorem c7_counterexample : parseLines none [""] = ([], [""]) := by decide

/-- C7 witness: the malformed line "   garbage line" produces exactly
one diagnostic and no transition while parsing continues. -/
theorem c7_witness :
    parseLines (some "INIT") ["   garbage line", "\tA -> B"] =
      ((parseLines (some "INIT") ["\tA -> B"]).1,
       "   garbage line" :: (parseLines (some "INIT") ["\tA -> B"]).2) :=
  c7_malformed_line (some "INIT") "   garbage line" ["\tA -> B"]
    (by decide) (by decide)

/-- Per-record soundness of the parse loop, generalized over the running
base-state: fields are non-empty, the output is the matched line's
parenthesized group, and the from-state (the base-state at that line) is
non-empty whenever present. -/
theorem parseLines_record_sound (lines : List String) : ∀ (b : Option String),
    (∀ s0, b = some s0 → s0 ≠ "") →
    ∀ p ∈ (parseLines b lines).1,
      p.toS ≠ "" ∧ p.inp ≠ "" ∧ (∀ x, p.outp = some x → x ≠ "") ∧
      (∀ f, p.fromS = some f → f ≠ "") ∧
      ∃ l ∈ lines, reTransMatch l.data = some (p.inp, p.toS, p.outp) ∧
        (p.outp.isSome = true ↔ '(' ∈ l.data) := by
  induction lines with
  | nil =>
    intro b hb p hp
    simp [parseLines_nil] at hp
  | cons l rest ih =>
    intro b hb p hp
    rw [parseLines_cons] at hp
    cases hsm : reStateMatch l.data with
    | some s =>
      rw [hsm] at hp
      simp only [] at hp
      rcases ih (some s) (fun s0 hs0 => by
          rw [← Option.some.inj hs0]
          exact reStateMatch_sound hsm) p hp with
        ⟨ha, hbb, hc, hd, l2, hl2, hm⟩
      exact ⟨ha, hbb, hc, hd, l2, List.mem_cons_of_mem l hl2, hm⟩
    | none =>
      rw [hsm] at hp
      simp only [] at hp
      cases htm : reTransMatch l.data with
      | some trip =>
        obtain ⟨i2, s2, o2⟩ := trip
        rw [htm] at hp
        simp only [] at hp
        rcases List.mem_cons.mp hp with rfl | hp2
        · obtain ⟨hi, hs, ho, hiff⟩ := reTransMatch_sound htm
          exact ⟨hs, hi, ho, fun f hf => hb f hf, l,
            List.mem_cons_self l rest, htm, hiff⟩
        · rcases ih b hb p hp2 with ⟨ha, hbb, hc, hd, l2, hl2, hm⟩
          exact ⟨ha, hbb, hc, hd, l2, List.mem_cons_of_mem l hl2, hm⟩
      | none =>
        rw [htm] at hp
        simp only [] at hp
        rcases ih b hb p hp with ⟨ha, hbb, hc, hd, l2, hl2, hm⟩
        exact ⟨ha, hbb, hc, hd, l2, List.mem_cons_of_mem l hl2, hm⟩

/-- C8 counterexample: contrary to the claim, a transition line before
any state-declaration line yields a record with an absent from-state. -/
theorem c8_counterexample :
    (parseLines none ["\tX -> Y"]).1.map PTrans.fromS = [none] := by decide

/-- Every record parsed with a present base-state keeps a present
from-state: a state-declaration line installs `some`, and no line ever
resets the base-state to `none`. -/
theorem parseLines_some_fromS : ∀ (lines : List String) (s0 : String),
    ∀ p ∈ (parseLines (some s0) lines).1, p.fromS.isSome = true := by
  intro lines
  induction lines with
  | nil =>
    intro s0 p hp
    simp [parseLines_nil] at hp
  | cons l rest ih =>
    intro s0 p hp
    rw [parseLines_cons] at hp
    cases hsm : reStateMatch l.data with
    | some s =>
      rw [hsm] at hp
      simp only [] at hp
      exact ih s p hp
    | none =>
      rw [hsm] at hp
      simp only [] at hp
      cases htm : reTransMatch l.data with
      | some trip =>
        obtain ⟨i2, s2, o2⟩ := trip
        rw [htm] at hp
        simp only [] at hp
        rcases List.mem_cons.mp hp with rfl | hp2
        · rfl
        · exact ih s0 p hp2
      | none =>
        rw [htm] at hp
        simp only [] at hp
        exact ih s0 p hp

/-- The records with an absent from-state are exactly, in order, those
parsed from the transition lines of the longest prefix of the input
containing no state-declaration line (`base_state` is `None` there and
`some` ever after). -/
theorem parseLines_none_filter : ∀ (lines : List String),
    (parseLines none lines).1.filter (fun p => p.fromS.isNone) =
      (lines.takeWhile (fun l => (reStateMatch l.data).isNone)).filterMap
        (fun l => (reTransMatch l.data).map
          (fun trip => (⟨none, trip.2.1, trip.1, trip.2.2⟩ : PTrans))) := by
  intro lines
  induction lines with
  | nil => rfl
  | cons l rest ih =>
    rw [parseLines_cons]
    cases hsm : reStateMatch l.data with
    | some s =>
      simp only []
      rw [List.takeWhile_cons, if_neg (by simp [hsm]),
        List.filter_eq_nil_iff.mpr ?_, List.filterMap_nil]
      intro p hp
      have := parseLines_some_fromS rest s p hp
      cases hfs : p.fromS with
      | none => rw [hfs] at this; exact absurd this (by simp)
      | some v => simp
    | none =>
      simp only []
      rw [List.takeWhile_cons, if_pos (by simp [hsm])]
      cases htm : reTransMatch l.data with
      | some trip =>
        obtain ⟨i2, s2, o2⟩ := trip
        simp only []
        rw [List.filter_cons, if_pos (by rfl),
          List.filterMap_cons_some (by rw [htm]; rfl), ih]
      | none =>
        simp only []
        rw [List.filterMap_cons_none (by rw [htm]; rfl), ih]

/-- C8 (amended): every Transition record produced by the parser (which
starts with an absent base-state) has non-empty to-state and input, an
output that is non-empty and present exactly when the matched line names
a parenthesized output symbol, and a from-state that is non-empty
whenever present; the records with an absent from-state are exactly
those parsed from transition lines preceding every state-declaration
line. -/
theorem c8_record_invariant (lines : List String) :
    (∀ p ∈ (parseLines none lines).1,
      p.toS ≠ "" ∧ p.inp ≠ "" ∧ (∀ x, p.outp = some x → x ≠ "") ∧
      (∀ f, p.fromS = some f → f ≠ "") ∧
      ∃ l ∈ lines, reTransMatch l.data = some (p.inp, p.toS, p.outp) ∧
        (p.outp.isSome = true ↔ '(' ∈ l.data)) ∧
    (parseLines none lines).1.filter (fun p => p.fromS.isNone) =
      (lines.takeWhile (fun l => (reStateMatch l.data).isNone)).filterMap
        (fun l => (reTransMatch l.data).map
          (fun trip => (⟨none, trip.2.1, trip.1, trip.2.2⟩ : PTrans))) :=
  ⟨parseLines_record_sound lines none (fun _ h => Option.noConfusion h),
   parseLines_none_filter lines⟩

/-- C8 witness: on a file with one transition line before the first
state declaration and one after it, the post-declaration record has
non-empty fields with its output matching the parenthesized symbol of
its line, and the filter equation singles out exactly the
pre-declaration record as the one with an absent from-state. -/
theorem c8_witness :
    ((⟨some "INIT", "DONE", "CMD_A", some "PKT_B"⟩ : PTrans).toS ≠ "" ∧
     (⟨some "INIT", "DONE", "CMD_A", some "PKT_B"⟩ : PTrans).inp ≠ "" ∧
     (∀ x, (⟨some "INIT", "DONE", "CMD_A", some "PKT_B"⟩ : PTrans).outp =
       some x → x ≠ "") ∧
     (∀ f, (⟨some "INIT", "DONE", "CMD_A", some "PKT_B"⟩ : PTrans).fromS =
       some f → f ≠ "") ∧
     ∃ l ∈ ["\tX -> Y", "INIT:", "\tCMD_A -> DONE (PKT_B)"],
       reTransMatch l.data = some
         ((⟨some "INIT", "DONE", "CMD_A", some "PKT_B"⟩ : PTrans).inp,
          (⟨some "INIT", "DONE", "CMD_A", some "PKT_B"⟩ : PTrans).toS,
          (⟨some "INIT", "DONE", "CMD_A", some "PKT_B"⟩ : PTrans).outp) ∧
       ((⟨some "INIT", "DONE", "CMD_A", some "PKT_B"⟩ : PTrans).outp.isSome =
         true ↔ '(' ∈ l.data)) ∧
    (parseLines none ["\tX -> Y", "INIT:", "\tCMD_A -> DONE (PKT_B)"]).1.filter
        (fun p => p.fromS.isNone) =
      (["\tX -> Y", "INIT:", "\tCMD_A -> DONE (PKT_B)"].takeWhile
          (fun l => (reStateMatch l.data).isNone)).filterMap
        (fun l => (reTransMatch l.data).map
          (fun trip => (⟨none, trip.2.1, trip.1, trip.2.2⟩ : PTrans))) :=
  ⟨(c8_record_invariant ["\tX -> Y", "INIT:", "\tCMD_A -> DONE (PKT_B)"]).1
     ⟨some "INIT", "DONE", "CMD_A", some "PKT_B"⟩ (by decide),
   (c8_record_invariant ["\tX -> Y", "INIT:", "\tCMD_A -> DONE (PKT_B)"]).2⟩
